import Mathlib

/-!
Verification development for the ChessCoin stake-escrow and match-resolution
engine.  The definitions below are a shallow embedding of the repository's
core: the wallet module (`ensureTx`, `holdStake`, `resolveMatch`), and the
event handlers and timeout callbacks of the backend server (`gameStart` /
`gameFinish` stream handlers, challenge and queue timeout callbacks).

Database tables (Balance, TxLedger, Match, Escrow, User) and the process-local
maps (pendingStakeByUser, pendingChallenges) are modelled as association
lists inside a single state record `St`.  A Prisma `$transaction` that throws
is modelled by returning `Except.error`: the caller keeps the pre-transaction
state, which is exactly the rollback semantics of the source.

The migrations add a unique index `TxLedger_user_type_ref_uq` on
`(userId, type, ref)`; a `txLedger.create` that would violate it throws and
rolls back its enclosing transaction.  PostgreSQL unique indexes treat NULL
as distinct, so rows with `ref = NULL` are never blocked by the index.
-/

namespace ChessCoin

/-- Transaction kinds of the TxLedger table (enum `TxType` of the init migration). -/
inductive TxType
  | gain
  | spend
  | stake_hold
  | stake_release
  | refund
deriving DecidableEq, Repr

/-- Match results (enum `Result` of the init migration): win / loss / draw / abort. -/
inductive Result
  | W
  | L
  | D
  | abort
deriving DecidableEq, Repr

/-- Escrow states (enum `EscrowStatus` of the init migration). -/
inductive EscrowStatus
  | held
  | resolved
  | refunded
deriving DecidableEq, Repr

/-- Chess colors, used for the provisional side assignment in `holdStake`. -/
inductive Color
  | white
  | black
deriving DecidableEq, Repr

/-- One row of the TxLedger table (id and createdAt omitted: no claim reads them). -/
structure TxEntry where
  userId : String
  txType : TxType
  amount : Int
  ref : Option String
deriving DecidableEq, Repr

/-- One row of the Escrow table (keyed by matchId in the state). -/
structure Escrow where
  whiteHold : Int
  blackHold : Int
  status : EscrowStatus
deriving DecidableEq, Repr

/-- One row of the Match table (keyed by id in the state; pgn/createdAt omitted). -/
structure MatchRec where
  stakeCC : Int
  whiteId : Option String
  blackId : Option String
  lichessGameId : Option String
  result : Option Result
deriving DecidableEq, Repr

/-- The part of a User row the event handlers read. -/
structure UserRec where
  lichessUsername : Option String
deriving DecidableEq, Repr

/-- One entry of the process-local pendingChallenges map (timer handle omitted). -/
structure PendChal where
  aUserId : String
  bUserId : String
  started : Bool
deriving DecidableEq, Repr

/-- The whole system state: database tables plus the process-local maps. -/
structure St where
  balances : List (String × Int)
  ledger : List TxEntry
  escrows : List (String × Escrow)
  matchTable : List (String × MatchRec)
  users : List (String × UserRec)
  pendingStake : List (String × String)
  pendingChallenges : List (String × PendChal)
deriving DecidableEq, Repr

/-- Association-list lookup by key (models `findUnique` / `Map.get`). -/
def lookupA {α : Type} (k : String) : List (String × α) → Option α
  | [] => none
  | (k', v) :: rest => if k' = k then some v else lookupA k rest

/-- Association-list in-place update of the first binding of `k`
(models a SQL `UPDATE ... WHERE key = k`); no-op if the key is absent. -/
def updateA {α : Type} (k : String) (f : α → α) : List (String × α) → List (String × α)
  | [] => []
  | (k', v) :: rest => if k' = k then (k', f v) :: rest else (k', v) :: updateA k f rest

/-- Association-list deletion of the first binding of `k` (models `Map.delete`). -/
def eraseA {α : Type} (k : String) : List (String × α) → List (String × α)
  | [] => []
  | (k', v) :: rest => if k' = k then rest else (k', v) :: eraseA k rest

/-- Errors thrown by the modelled operations.  A thrown error aborts the
enclosing transaction: in this model the caller keeps the old state. -/
inductive Err
  | insufficientFunds
  | matchNotFound
  | winnerRequired
  | recordNotFound
  | uniqueViolation
deriving DecidableEq, Repr

/-- First TxLedger row matching `(userId, type, ref)` (the `findFirst` of `ensureTx`). -/
def findTxL (L : List TxEntry) (u : String) (t : TxType) (ref : Option String) :
    Option TxEntry :=
  L.find? fun e => decide (e.userId = u ∧ e.txType = t ∧ e.ref = ref)

/-- Whether a TxLedger row with this idempotency key exists. -/
def ledgerHas (st : St) (u : String) (t : TxType) (ref : Option String) : Bool :=
  (findTxL st.ledger u t ref).isSome

/-- Model of `ensureTx` (wallet module): applicative idempotence on
`(userId, type, ref)`.  With a non-null `ref`, an existing row is returned
unchanged; otherwise a row is created and the balance incremented by `amount`
(the `balance.update` requires the Balance row to exist, else Prisma throws). -/
def ensureTx (st : St) (u : String) (t : TxType) (amount : Int) (ref : Option String) :
    Except Err St :=
  let existing := match ref with
    | some _ => findTxL st.ledger u t ref
    | none => none
  match existing with
  | some _ => .ok st
  | none =>
    match lookupA u st.balances with
    | none => .error .recordNotFound
    | some _ =>
      .ok { st with
        ledger := { userId := u, txType := t, amount := amount, ref := ref } :: st.ledger,
        balances := updateA u (· + amount) st.balances }

/-- State after a successful ledger write: the new TxLedger row prepended
and the balance incremented by the amount. -/
def postTx (st : St) (u : String) (t : TxType) (a : Int) (ref : Option String) : St :=
  { st with ledger := { userId := u, txType := t, amount := a, ref := ref } :: st.ledger,
            balances := updateA u (· + a) st.balances }

/-- Model of `holdStake` (wallet module): debit the stake (hold) and
initialise or update the escrow row.  A stake ≤ 0 returns without doing
anything; an absent balance row or a balance below the stake throws
`INSUFFICIENT_FUNDS` before any mutation. -/
def holdStake (st : St) (matchId whoUserId : String) (whoColor : Color) (stake : Int) :
    Except Err St :=
  if stake ≤ 0 then .ok st
  else
    match lookupA whoUserId st.balances with
    | none => .error .insufficientFunds
    | some bal =>
      if bal < stake then .error .insufficientFunds
      else
        match ensureTx st whoUserId .stake_hold (-stake) (some matchId) with
        | .error e => .error e
        | .ok st1 =>
          match lookupA matchId st1.escrows with
          | none =>
            .ok { st1 with escrows :=
              (matchId,
                { whiteHold := if whoColor = .white then stake else 0,
                  blackHold := if whoColor = .black then stake else 0,
                  status := .held }) :: st1.escrows }
          | some esc =>
            let esc1 : Escrow :=
              { esc with
                whiteHold := esc.whiteHold + (if whoColor = .white then stake else 0),
                blackHold := esc.blackHold + (if whoColor = .black then stake else 0) }
            .ok { st1 with escrows := updateA matchId (fun _ => esc1) st1.escrows }

/-- One refund leg of the draw/abort branch of `resolveMatch`:
`if (args.xUserId && stakeX > 0) await ensureTx(refund, stakeX, gameId)`. -/
def refundSide (st : St) (g : String) (uid : Option String) (amt : Int) : Except Err St :=
  match uid with
  | some u => if 0 < amt then ensureTx st u .refund amt (some g) else .ok st
  | none => .ok st

/-- Draw/abort leg of `resolveMatch`: refund both recorded holds (each one
guarded by the presence of the side account and a nonzero hold), then mark
the escrow refunded. -/
def refundFlow (st : St) (matchId g : String) (wu bu : Option String) (sw sb : Int) :
    Except Err St :=
  match refundSide st g wu sw with
  | .error e => .error e
  | .ok st2 =>
    match refundSide st2 g bu sb with
    | .error e => .error e
    | .ok st3 =>
      .ok { st3 with escrows := updateA matchId (fun ee => { ee with status := .refunded }) st3.escrows }

/-- Decisive-result leg of `resolveMatch`: always refund the winner's own
hold if it was blocked, credit the opposing hold as a gain, leave a
zero-amount `stake_release` trace for the loser when one is identified, and
mark the escrow resolved. -/
def winFlow (st : St) (matchId g winner : String) (loser : Option String)
    (winnerOwnStake loserStake : Int) : Except Err St :=
  match (if 0 < winnerOwnStake then
           ensureTx st winner .refund winnerOwnStake (some g)
         else .ok st) with
  | .error e => .error e
  | .ok st2 =>
    match (if 0 < loserStake then
             ensureTx st2 winner .gain loserStake (some g)
           else .ok st2) with
    | .error e => .error e
    | .ok st3 =>
      match (match loser with
             | some l => ensureTx st3 l .stake_release 0 (some g)
             | none => .ok st3) with
      | .error e => .error e
      | .ok st4 =>
        .ok { st4 with escrows := updateA matchId (fun ee => { ee with status := .resolved }) st4.escrows }

/-- Escrow part of `resolveMatch`, run after the Match row update.  `e?` is
the Escrow row read at entry.  Draw/abort refunds the recorded holds; a win
refunds the winner's own hold, credits the loser's hold as a gain, writes a
zero-amount `stake_release` trace for the loser if one is identified, and
marks the escrow resolved.  A result `L` falls through and changes nothing. -/
def settleEscrow (st : St) (matchId g : String) (result : Result)
    (winnerUserId whiteUserId blackUserId : Option String) (e? : Option Escrow) :
    Except Err St :=
  let stakeWhite := (e?.map (·.whiteHold)).getD 0
  let stakeBlack := (e?.map (·.blackHold)).getD 0
  if e?.isNone ∨ (stakeWhite = 0 ∧ stakeBlack = 0) then .ok st
  else if result = .D ∨ result = .abort then
    refundFlow st matchId g whiteUserId blackUserId stakeWhite stakeBlack
  else if result = .W then
    match winnerUserId with
    | none => .error .winnerRequired
    | some winner =>
      let winnerIsWhite : Bool := whiteUserId == some winner
      winFlow st matchId g winner (if winnerIsWhite then blackUserId else whiteUserId)
        (if winnerIsWhite then stakeWhite else stakeBlack)
        (if winnerIsWhite then stakeBlack else stakeWhite)
  else .ok st

/-- Model of `resolveMatch` (wallet module).  Finds the Match row (throws
`MATCH_NOT_FOUND` if absent), no-ops if a result is already recorded, else
records `lichessGameId` and `result` on the Match row and settles the escrow. -/
def resolveMatch (st : St) (matchId lichessGameId : String) (result : Result)
    (winnerUserId whiteUserId blackUserId : Option String) : Except Err St :=
  match lookupA matchId st.matchTable with
  | none => .error .matchNotFound
  | some m =>
    if m.result.isSome then .ok st
    else
      let setRes : MatchRec → MatchRec :=
        fun mm => { mm with lichessGameId := some lichessGameId, result := some result }
      settleEscrow { st with matchTable := updateA matchId setRes st.matchTable }
        matchId lichessGameId result winnerUserId whiteUserId blackUserId
        (lookupA matchId st.escrows)

/-- Kernel-computable lowercasing (the model of JS `toLowerCase` /
Prisma `mode: 'insensitive'`), written over the character list. -/
def toLowerStr (s : String) : String := String.mk (s.data.map Char.toLower)

/-- Digested game summary as used by the `gameFinish` handler: the winner
color, whether the lichess status is `draw`, and the displayed player names
(`players.x.user.name ?? players.x.userId`, absent when both are missing). -/
structure GameSummary where
  winner : Option Color
  statusDraw : Bool
  whiteName : Option String
  blackName : Option String
deriving DecidableEq, Repr

/-- Color detection of the acting user in the `gameFinish` handler: compare
the user's linked lichess username (lowercased, must be truthy) against the
lowercased displayed names; white is checked first. -/
def computeIsWhite (st : St) (userId : String) (sum : GameSummary) : Option Bool :=
  match lookupA userId st.users with
  | none => none
  | some me =>
    match me.lichessUsername with
    | none => none
    | some un =>
      if un = "" then none
      else
        let unl := toLowerStr un
        if toLowerStr (sum.whiteName.getD "") = unl then some true
        else if toLowerStr (sum.blackName.getD "") = unl then some false
        else none

/-- Result computation of the `gameFinish` handler: `'D'` on a draw status,
win/loss when a winner and the acting color are both known, else null. -/
def computeResult (sum : GameSummary) (isWhite : Option Bool) : Option Result :=
  if sum.statusDraw then some .D
  else
    match sum.winner, isWhite with
    | some c, some w =>
      if (c = .white ∧ w = true) ∨ (c = .black ∧ w = false) then some .W else some .L
    | _, _ => none

/-- Flat casual reward of the `gameFinish` handler: draw 3, no winner 1,
win 8, anything else (loss or undetermined color) 1. -/
def casualDelta (sum : GameSummary) (isWhite : Option Bool) : Int :=
  if sum.statusDraw then 3
  else
    match sum.winner with
    | none => 1
    | some c =>
      if (c = .white ∧ isWhite = some true) ∨ (c = .black ∧ isWhite = some false) then 8
      else 1

/-- Opponent display name as read by the `gameFinish` handler. -/
def computeOppName (sum : GameSummary) (isWhite : Option Bool) : Option String :=
  match isWhite with
  | some true => sum.blackName
  | some false => sum.whiteName
  | none => none

/-- Case-insensitive user lookup by lichess username
(`findFirst where lichessUsername equals ... mode insensitive`). -/
def findUserByName (st : St) (name : String) : Option String :=
  (st.users.find? fun p =>
    match p.2.lichessUsername with
    | some u => toLowerStr u == toLowerStr name
    | none => false).map (·.1)

/-- First Match row whose `lichessGameId` equals `gid` (the unique-indexed
`where` clause of the handler's `match.upsert`). -/
def findMatchByGid (st : St) (gid : String) : Option (String × MatchRec) :=
  st.matchTable.find? fun p => p.2.lichessGameId == some gid

/-- The handler's `match.upsert` keyed by `lichessGameId`: update only the
result if the row exists (`result ?? undefined` leaves it untouched when the
computed result is null), otherwise create a row with default `stakeCC = 0`
and the computed side ids.  Returns the post-operation row and its id. -/
def upsertMatchByGid (st : St) (gid freshId : String) (result : Option Result)
    (whiteId blackId : Option String) : St × String × MatchRec :=
  match findMatchByGid st gid with
  | some (mid, m) =>
    let m1 := match result with
      | some r => { m with result := some r }
      | none => m
    ({ st with matchTable := updateA mid (fun _ => m1) st.matchTable }, mid, m1)
  | none =>
    let m : MatchRec :=
      { stakeCC := 0, whiteId := whiteId, blackId := blackId,
        lichessGameId := some gid, result := result }
    ({ st with matchTable := (freshId, m) :: st.matchTable }, freshId, m)

/-- The casual-reward transaction of the `gameFinish` handler:
`$transaction([balance.update(increment delta), txLedger.create(gain, delta, ref gid)])`.
The `txLedger.create` is a plain create; the unique index
`TxLedger_user_type_ref_uq` makes a duplicate `(userId, gain, gid)` row throw,
rolling back the whole transaction. -/
def casualRewardTx (st : St) (userId gid : String) (delta : Int) : Except Err St :=
  match lookupA userId st.balances with
  | none => .error .recordNotFound
  | some _ =>
    if ledgerHas st userId .gain (some gid) then .error .uniqueViolation
    else
      .ok { st with
        balances := updateA userId (· + delta) st.balances,
        ledger := { userId := userId, txType := .gain, amount := delta, ref := some gid } :: st.ledger }

/-- Model of the `gameFinish` branch of `ensureStreamFor`: digest the summary,
upsert the Match row by external game id, then either resolve the staked
match through the escrow engine (cleaning the pending maps on success, with
any thrown error swallowed by the surrounding catch) or credit the flat
casual reward (also under a swallowing catch). -/
def gameFinish (st : St) (userId gid freshId : String) (sum : GameSummary) : St :=
  let isWhite := computeIsWhite st userId sum
  let result := computeResult sum isWhite
  let oppName := computeOppName sum isWhite
  let opponentUserId : Option String :=
    match oppName with
    | some n => if n = "" then none else findUserByName st n
    | none => none
  let createWhite : Option String :=
    if isWhite = some true then some userId
    else if opponentUserId.isSome ∧ isWhite = some false then opponentUserId
    else none
  let createBlack : Option String :=
    if isWhite = some false then some userId
    else if opponentUserId.isSome ∧ isWhite = some true then opponentUserId
    else none
  let up := upsertMatchByGid st gid freshId result createWhite createBlack
  let st1 := up.1
  let mid := up.2.1
  let m := up.2.2
  if 0 < m.stakeCC then
    let winnerUserId : Option String :=
      if result = some Result.W then
        if isWhite = some true then some (m.whiteId.getD userId)
        else if isWhite = some false then some (m.blackId.getD userId)
        else none
      else none
    match resolveMatch st1 mid gid (result.getD .abort) winnerUserId m.whiteId m.blackId with
    | .error _ => st1
    | .ok st2 =>
      let st3 := { st2 with pendingChallenges := eraseA mid st2.pendingChallenges }
      let st4 := { st3 with pendingStake := eraseA userId st3.pendingStake }
      match opponentUserId with
      | some o => { st4 with pendingStake := eraseA o st4.pendingStake }
      | none => st4
  else
    match casualRewardTx st1 userId gid (casualDelta sum isWhite) with
    | .ok s => s
    | .error _ => st1

/-- Model of the `gameStart` branch of `ensureStreamFor`: if the user has a
pending staked match, attach the external game id to it (a missing Match row
makes the update throw, aborting the whole try-block), then mark any pending
challenge as started and cancel its timer. -/
def gameStart (st : St) (userId gid : String) : St :=
  match lookupA userId st.pendingStake with
  | none => st
  | some matchId =>
    match lookupA matchId st.matchTable with
    | none => st
    | some _ =>
      let setGid : MatchRec → MatchRec := fun m => { m with lichessGameId := some gid }
      let st1 := { st with matchTable := updateA matchId setGid st.matchTable }
      match lookupA matchId st1.pendingChallenges with
      | none => st1
      | some p =>
        { st1 with pendingChallenges := updateA matchId (fun _ => { p with started := true }) st1.pendingChallenges }

/-- Started flag of a pending challenge (`pendingChallenges.get(id)?.started`). -/
def startedFlag (st : St) (matchId : String) : Bool :=
  match lookupA matchId st.pendingChallenges with
  | some p => p.started
  | none => false

/-- Model of the direct-challenge timeout callback: if the match still has no
external game id and the pending challenge was not marked started, resolve it
as an abort (errors swallowed by the catch) and clear the pending maps. -/
def challengeTimeoutCb (st : St) (matchId cancelGid aUserId bUserId : String) : St :=
  let gidSet : Bool :=
    match lookupA matchId st.matchTable with
    | some m => m.lichessGameId.isSome
    | none => false
  if gidSet = false ∧ startedFlag st matchId = false then
    match resolveMatch st matchId cancelGid .abort none (some aUserId) (some bUserId) with
    | .error _ => st
    | .ok st1 =>
      { st1 with
        pendingStake := eraseA bUserId (eraseA aUserId st1.pendingStake),
        pendingChallenges := eraseA matchId st1.pendingChallenges }
  else st

/-- Model of the matchmaking-queue timeout callback: same as the challenge
timeout but guarded only by the absence of an external game id, and it does
not remove the pendingChallenges entry. -/
def queueTimeoutCb (st : St) (matchId cancelGid aUserId bUserId : String) : St :=
  let gidSet : Bool :=
    match lookupA matchId st.matchTable with
    | some m => m.lichessGameId.isSome
    | none => false
  if gidSet = false then
    match resolveMatch st matchId cancelGid .abort none (some aUserId) (some bUserId) with
    | .error _ => st
    | .ok st1 =>
      { st1 with pendingStake := eraseA bUserId (eraseA aUserId st1.pendingStake) }
  else st

/-- One wallet call: a `holdStake` or a `resolveMatch`, the operations the
conservation property quantifies over. -/
inductive Step
  | hold (matchId userId : String) (whoColor : Color) (stake : Int)
  | resolve (matchId gid : String) (result : Result)
      (winnerUserId whiteUserId blackUserId : Option String)

/-- Run one wallet call; a thrown error rolls the transaction back, so the
state is unchanged. -/
def applyStep (st : St) : Step → St
  | .hold mid u c s =>
    match holdStake st mid u c s with
    | .ok st1 => st1
    | .error _ => st
  | .resolve mid g r w wu bu =>
    match resolveMatch st mid g r w wu bu with
    | .ok st1 => st1
    | .error _ => st

/-- Run a sequence of wallet calls. -/
def runSteps (st : St) : List Step → St
  | [] => st
  | s :: rest => runSteps (applyStep st s) rest

/-- Amount a single escrow row contributes to the currently-held total. -/
def heldAmt (e : Escrow) : Int :=
  if e.status = .held then e.whiteHold + e.blackHold else 0

/-- Sum of a projection over the values of an association list. -/
def sumBy {α : Type} (f : α → Int) (l : List (String × α)) : Int :=
  (l.map fun p => f p.2).sum

/-- The conserved quantity: sum of all balances plus all currently held escrow. -/
def totalCredit (st : St) : Int :=
  sumBy (fun b => b) st.balances + sumBy heldAmt st.escrows

/-- Escrow sanity: no escrow row carries a negative hold (holds are only ever
created or incremented by positive stakes). -/
def EscInv (st : St) : Prop :=
  ∀ p ∈ st.escrows, 0 ≤ p.2.whiteHold ∧ 0 ≤ p.2.blackHold

instance (st : St) : Decidable (EscInv st) :=
  inferInstanceAs (Decidable (∀ p ∈ st.escrows, 0 ≤ p.2.whiteHold ∧ 0 ≤ p.2.blackHold))

/-- Wellformedness of one `hold` call against a state: a positive stake must
use a fresh `(userId, stake_hold, matchId)` ledger key and target an escrow
that is absent or still held. -/
def holdOkB (st : St) (mid u : String) (s : Int) : Bool :=
  !(decide (0 < s)) ||
    (!(ledgerHas st u .stake_hold (some mid)) &&
      (match lookupA mid st.escrows with
       | none => true
       | some e => decide (e.status = .held)))

/-- Wellformedness of the draw/abort legs of one `resolve` call: each nonzero
hold must have its side account supplied with a fresh refund key, and the two
side accounts must differ when both holds are nonzero. -/
def drawOkB (st : St) (g : String) (e : Escrow) (wu bu : Option String) : Bool :=
  (!(decide (0 < e.whiteHold)) ||
     (match wu with
      | some uw => !(ledgerHas st uw .refund (some g))
      | none => false)) &&
  (!(decide (0 < e.blackHold)) ||
     (match bu with
      | some ub => !(ledgerHas st ub .refund (some g))
      | none => false)) &&
  (!(decide (0 < e.whiteHold)) || !(decide (0 < e.blackHold)) || decide (wu ≠ bu))

/-- Wellformedness of one `resolve` call against a state: when the escrow is
present with a nonzero hold it must still be held, and the money-moving legs
must use fresh ledger idempotency keys. -/
def resolveOkB (st : St) (mid g : String) (r : Result)
    (w wu bu : Option String) : Bool :=
  match lookupA mid st.escrows with
  | none => true
  | some e =>
    decide (e.whiteHold = 0 ∧ e.blackHold = 0) ||
      (decide (e.status = .held) &&
        (match r with
         | .D => drawOkB st g e wu bu
         | .abort => drawOkB st g e wu bu
         | .W =>
           (match w with
            | none => true
            | some win =>
              (!(decide (0 < (if wu == some win then e.whiteHold else e.blackHold))) ||
                 !(ledgerHas st win .refund (some g))) &&
              (!(decide (0 < (if wu == some win then e.blackHold else e.whiteHold))) ||
                 !(ledgerHas st win .gain (some g))))
         | .L => true))

/-- Wellformedness of one wallet call against a state. -/
def stepOk (st : St) : Step → Bool
  | .hold mid u _ s => holdOkB st mid u s
  | .resolve mid g r w wu bu => resolveOkB st mid g r w wu bu

/-- Wellformedness of a whole sequence of wallet calls, each one checked
against the state it actually runs in. -/
def stepsOk (st : St) : List Step → Bool
  | [] => true
  | s :: rest => stepOk st s && stepsOk (applyStep st s) rest

/-! Association-list and accounting lemmas. -/

theorem lookupA_updateA_self {α : Type} (k : String) (f : α → α) (l : List (String × α)) :
    lookupA k (updateA k f l) = (lookupA k l).map f := by
  induction l with
  | nil => rfl
  | cons p rest ih =>
    obtain ⟨a, v⟩ := p
    by_cases h : a = k
    · simp [lookupA, updateA, h]
    · simp [lookupA, updateA, h, ih]

theorem lookupA_updateA_ne {α : Type} (k k2 : String) (h : k2 ≠ k) (f : α → α)
    (l : List (String × α)) : lookupA k2 (updateA k f l) = lookupA k2 l := by
  induction l with
  | nil => rfl
  | cons p rest ih =>
    obtain ⟨a, v⟩ := p
    have h3 : k ≠ k2 := fun hh => h hh.symm
    by_cases h1 : a = k
    · simp [lookupA, updateA, h1, h3]
    · by_cases h2 : a = k2
      · simp [lookupA, updateA, h1, h2, h]
      · simp [lookupA, updateA, h1, h2, ih]

theorem lookupA_mem {α : Type} {k : String} {v : α} {l : List (String × α)}
    (h : lookupA k l = some v) : (k, v) ∈ l := by
  induction l with
  | nil => simp [lookupA] at h
  | cons p rest ih =>
    obtain ⟨a, w⟩ := p
    by_cases h1 : a = k
    · subst h1
      simp [lookupA] at h
      subst h
      exact List.mem_cons_self _ _
    · simp [lookupA, h1] at h
      exact List.mem_cons_of_mem _ (ih h)

theorem mem_updateA {α : Type} {P : α → Prop} {k : String} {f : α → α}
    {l : List (String × α)} (hl : ∀ p ∈ l, P p.2) (hf : ∀ v, P v → P (f v)) :
    ∀ p ∈ updateA k f l, P p.2 := by
  induction l with
  | nil => intro p hp; simp [updateA] at hp
  | cons q rest ih =>
    obtain ⟨a, v⟩ := q
    intro p hp
    by_cases h1 : a = k
    · simp only [updateA, if_pos h1, List.mem_cons] at hp
      rcases hp with hp | hp
      · rw [hp]; exact hf v (hl (a, v) (List.mem_cons_self _ _))
      · exact hl p (List.mem_cons_of_mem _ hp)
    · simp only [updateA, if_neg h1, List.mem_cons] at hp
      rcases hp with hp | hp
      · rw [hp]; exact hl (a, v) (List.mem_cons_self _ _)
      · exact ih (fun q hq => hl q (List.mem_cons_of_mem _ hq)) p hp

theorem sumBy_cons {α : Type} (f : α → Int) (a : String) (v : α) (l : List (String × α)) :
    sumBy f ((a, v) :: l) = f v + sumBy f l := by
  simp [sumBy]

theorem sumBy_updateA {α : Type} (f : α → Int) (k : String) (g : α → α)
    {l : List (String × α)} {v : α} (h : lookupA k l = some v) :
    sumBy f (updateA k g l) = sumBy f l - f v + f (g v) := by
  induction l with
  | nil => simp [lookupA] at h
  | cons p rest ih =>
    obtain ⟨a, w⟩ := p
    by_cases h1 : a = k
    · simp [lookupA, h1] at h
      subst h
      simp only [updateA, if_pos h1, sumBy_cons]
      ring
    · simp [lookupA, h1] at h
      simp only [updateA, if_neg h1, sumBy_cons, ih h]
      ring

theorem ledgerHas_eq_false {st : St} {u : String} {t : TxType} {ref : Option String}
    (h : ledgerHas st u t ref = false) : findTxL st.ledger u t ref = none := by
  cases hh : findTxL st.ledger u t ref with
  | none => rfl
  | some e => simp [ledgerHas, hh] at h

theorem findTxL_cons_ne {e : TxEntry} (L : List TxEntry) {u : String} {t : TxType}
    {ref : Option String} (h : ¬(e.userId = u ∧ e.txType = t ∧ e.ref = ref)) :
    findTxL (e :: L) u t ref = findTxL L u t ref := by
  simp only [findTxL, List.find?]
  rw [decide_eq_false h]

/-! Behavior lemmas for `ensureTx`. -/

theorem ensureTx_dup {st : St} {u : String} {t : TxType} {a : Int} {g : String} {e : TxEntry}
    (h : findTxL st.ledger u t (some g) = some e) :
    ensureTx st u t a (some g) = .ok st := by
  simp [ensureTx, h]

theorem ensureTx_fresh {st : St} {u : String} {t : TxType} {a : Int} {g : String} {b : Int}
    (h : findTxL st.ledger u t (some g) = none) (hb : lookupA u st.balances = some b) :
    ensureTx st u t a (some g) = .ok (postTx st u t a (some g)) := by
  simp [ensureTx, postTx, h, hb]

theorem ensureTx_none_ref {st : St} {u : String} {t : TxType} {a : Int} {b : Int}
    (hb : lookupA u st.balances = some b) :
    ensureTx st u t a none = .ok (postTx st u t a none) := by
  simp [ensureTx, postTx, hb]

theorem totalCredit_bal_ledger {st : St} {u : String} {a b : Int} {e : TxEntry}
    (hb : lookupA u st.balances = some b) :
    totalCredit { st with ledger := e :: st.ledger,
                          balances := updateA u (· + a) st.balances }
      = totalCredit st + a := by
  unfold totalCredit
  simp only []
  rw [sumBy_updateA (fun x => x) u (· + a) hb]
  ring

theorem totalCredit_postTx {st : St} {u : String} {a b : Int} {t : TxType}
    {ref : Option String} (hb : lookupA u st.balances = some b) :
    totalCredit (postTx st u t a ref) = totalCredit st + a :=
  totalCredit_bal_ledger hb

theorem ensureTx_fresh_total {st st2 : St} {u : String} {t : TxType} {a : Int} {g : String}
    (hf : findTxL st.ledger u t (some g) = none)
    (hok : ensureTx st u t a (some g) = .ok st2) :
    totalCredit st2 = totalCredit st + a ∧ st2.escrows = st.escrows ∧
      st2.ledger = (⟨u, t, a, some g⟩ : TxEntry) :: st.ledger := by
  cases hb : lookupA u st.balances with
  | none => rw [ensureTx, hf] at hok; simp [hb] at hok
  | some b =>
    rw [ensureTx_fresh hf hb] at hok
    have h2 : st2 = postTx st u t a (some g) := by
      cases hok; rfl
    subst h2
    exact ⟨totalCredit_postTx hb, rfl, rfl⟩

theorem ensureTx_ok_total {st st2 : St} {u : String} {t : TxType} {a : Int} {g : String}
    (hok : ensureTx st u t a (some g) = .ok st2) :
    (st2 = st) ∨
      (totalCredit st2 = totalCredit st + a ∧ st2.escrows = st.escrows ∧
        st2.ledger = (⟨u, t, a, some g⟩ : TxEntry) :: st.ledger) := by
  cases hf : findTxL st.ledger u t (some g) with
  | some e =>
    left
    rw [ensureTx_dup hf] at hok
    cases hok
    rfl
  | none => exact Or.inr (ensureTx_fresh_total hf hok)

theorem ensureTx_zero {st st2 : St} {u : String} {t : TxType} {g : String}
    (hok : ensureTx st u t 0 (some g) = .ok st2) :
    totalCredit st2 = totalCredit st ∧ st2.escrows = st.escrows := by
  rcases ensureTx_ok_total hok with h | ⟨h1, h2, _⟩
  · subst h; exact ⟨rfl, rfl⟩
  · exact ⟨by omega, h2⟩

theorem totalCredit_escrow_status {st : St} {mid : String} {e : Escrow}
    (snew : EscrowStatus) (he : lookupA mid st.escrows = some e) :
    totalCredit { st with escrows := updateA mid (fun ee => { ee with status := snew }) st.escrows }
      = totalCredit st - heldAmt e + heldAmt { e with status := snew } := by
  unfold totalCredit
  simp only []
  rw [sumBy_updateA heldAmt mid _ he]
  ring

/-- Settling with result `L` never touches the escrow or the ledger. -/
theorem settleEscrow_L (st : St) (mid g : String) (w wu bu : Option String)
    (e? : Option Escrow) : settleEscrow st mid g .L w wu bu e? = .ok st := by
  cases e? with
  | none => simp [settleEscrow]
  | some e =>
    by_cases hz : e.whiteHold = 0 ∧ e.blackHold = 0
    · simp [settleEscrow, hz]
    · simp [settleEscrow, hz]

/-- A fresh wager with the standard stakes held by two accounts, used as a
concrete scenario state. -/
def mOpen20 : MatchRec :=
  { stakeCC := 20, whiteId := none, blackId := none, lichessGameId := none, result := none }

/-- Base scenario state: accounts A and B with balance 100 each, one open
staked match `m`, both accounts registered as pending on it. -/
def stBase : St :=
  { balances := [("A", 100), ("B", 100)], ledger := [], escrows := [],
    matchTable := [("m", mOpen20)],
    users := [("A", { lichessUsername := some "alice" }),
              ("B", { lichessUsername := some "bob" })],
    pendingStake := [("A", "m"), ("B", "m")], pendingChallenges := [] }

/-- Scenario state after both 20-CC stakes are held. -/
def stHeld2 : St := runSteps stBase [.hold "m" "A" .white 20, .hold "m" "B" .black 20]

/-- C9: a `resolveMatch` call with result `L` on a match with no prior result
sets the match's result field (and game id) but creates no ledger entry,
changes no balance, and leaves the escrow rows — hence the held stakes —
untouched: they are neither refunded nor transferred. -/
theorem claim_C9 (st : St) (mid g : String) (w wu bu : Option String) (m : MatchRec)
    (hm : lookupA mid st.matchTable = some m) (hres : m.result = none) :
    ∃ st2, resolveMatch st mid g .L w wu bu = .ok st2 ∧
      st2.ledger = st.ledger ∧ st2.balances = st.balances ∧ st2.escrows = st.escrows ∧
      lookupA mid st2.matchTable =
        some { m with lichessGameId := some g, result := some .L } := by
  refine ⟨{ st with matchTable := updateA mid (fun mm => { mm with lichessGameId := some g, result := some Result.L }) st.matchTable }, ?_, rfl, rfl, rfl, ?_⟩
  · simp only [resolveMatch, hm, hres, Option.isSome_none, Bool.false_eq_true, if_false]
    exact settleEscrow_L _ mid g w wu bu _
  · rw [lookupA_updateA_self, hm]
    rfl

/-- C9 witness: the theorem applied to the two-player held-stakes scenario. -/
theorem claim_C9_witness :
    ∃ st2, resolveMatch stHeld2 "m" "g1" .L none (some "A") (some "B") = .ok st2 ∧
      st2.ledger = stHeld2.ledger ∧ st2.balances = stHeld2.balances ∧
      st2.escrows = stHeld2.escrows ∧
      lookupA "m" st2.matchTable =
        some { stakeCC := 20, whiteId := none, blackId := none,
               lichessGameId := some "g1", result := some .L } :=
  claim_C9 stHeld2 "m" "g1" none (some "A") (some "B")
    { stakeCC := 20, whiteId := none, blackId := none,
      lichessGameId := none, result := none } (by decide) (by decide)

/-- C10: duplicate suppression applies only to non-null refs: an `ensureTx`
call with `ref = null` always creates a new ledger row and applies the
balance delta again, whatever rows — including identical `(userId, type,
null)` ones — already exist. -/
theorem claim_C10 (st : St) (u : String) (t : TxType) (a b : Int)
    (hb : lookupA u st.balances = some b) :
    ensureTx st u t a none =
      .ok { st with ledger := ⟨u, t, a, none⟩ :: st.ledger,
                    balances := updateA u (· + a) st.balances } ∧
    lookupA u (updateA u (· + a) st.balances) = some (b + a) := by
  refine ⟨ensureTx_none_ref hb, ?_⟩
  rw [lookupA_updateA_self, hb]
  rfl

/-- Concrete state for the C10 witness: the ledger already holds an identical
`(A, gain, null)` row. -/
def stNullRef : St :=
  { balances := [("A", 5)], ledger := [⟨"A", .gain, 3, none⟩], escrows := [],
    matchTable := [], users := [], pendingStake := [], pendingChallenges := [] }

/-- C10 witness: even with an identical `(A, gain, null)` row present, the
call appends a second row and moves the balance from 5 to 8. -/
theorem claim_C10_witness :
    ensureTx stNullRef "A" .gain 3 none =
      .ok { stNullRef with ledger := ⟨"A", .gain, 3, none⟩ :: stNullRef.ledger,
                           balances := updateA "A" (· + 3) stNullRef.balances } ∧
    lookupA "A" (updateA "A" (· + 3) stNullRef.balances) = some 8 :=
  claim_C10 stNullRef "A" .gain 3 5 (by decide)

/-- C5: a hold whose stake exceeds the account's (nonnegative) balance throws
`INSUFFICIENT_FUNDS` — the throw happens before any write and rolls the
transaction back, so no mutation is observable — and a hold that succeeds
never drives any nonnegative balance below zero. -/
theorem claim_C5 :
    (∀ (st : St) (mid u : String) (c : Color) (s b : Int),
        lookupA u st.balances = some b → 0 ≤ b → b < s →
        holdStake st mid u c s = .error .insufficientFunds) ∧
    (∀ (st st2 : St) (mid u : String) (c : Color) (s : Int),
        holdStake st mid u c s = .ok st2 →
        ∀ (u2 : String) (b0 : Int), lookupA u2 st.balances = some b0 → 0 ≤ b0 →
          ∃ b2, lookupA u2 st2.balances = some b2 ∧ 0 ≤ b2) := by
  constructor
  · intro st mid u c s b hb hb0 hlt
    have hs : ¬s ≤ 0 := by omega
    simp [holdStake, hs, hb, hlt]
  · intro st st2 mid u c s hok u2 b0 hb0 hpos
    by_cases hs : s ≤ 0
    · simp only [holdStake, if_pos hs] at hok
      cases hok
      exact ⟨b0, hb0, hpos⟩
    · simp only [holdStake, if_neg hs] at hok
      cases hb : lookupA u st.balances with
      | none => simp only [hb] at hok; cases hok
      | some bal =>
        simp only [hb] at hok
        by_cases hlt : bal < s
        · rw [if_pos hlt] at hok; cases hok
        · rw [if_neg hlt] at hok
          have hbal2 : st2.balances = st.balances ∨
              st2.balances = updateA u (· + (-s)) st.balances := by
            cases hf : findTxL st.ledger u .stake_hold (some mid) with
            | some e =>
              rw [ensureTx_dup hf] at hok
              cases he : lookupA mid st.escrows with
              | none => simp only [he] at hok; cases hok; exact Or.inl rfl
              | some esc => simp only [he] at hok; cases hok; exact Or.inl rfl
            | none =>
              rw [ensureTx_fresh hf hb] at hok
              simp only [postTx] at hok
              cases he : lookupA mid st.escrows with
              | none => simp only [he] at hok; cases hok; exact Or.inr rfl
              | some esc => simp only [he] at hok; cases hok; exact Or.inr rfl
          rcases hbal2 with hbal2 | hbal2
          · exact ⟨b0, by rw [hbal2, hb0], hpos⟩
          · by_cases hu : u2 = u
            · subst hu
              have : b0 = bal := by rw [hb0] at hb; cases hb; rfl
              subst this
              refine ⟨b0 + (-s), ?_, by omega⟩
              rw [hbal2, lookupA_updateA_self, hb0]
              rfl
            · exact ⟨b0, by rw [hbal2, lookupA_updateA_ne u u2 hu, hb0], hpos⟩

/-- C5 witness: a hold of 150 against balance 100 fails, and the successful
20-CC holds of the scenario keep both balances nonnegative. -/
theorem claim_C5_witness :
    holdStake stBase "m" "A" .white 150 = .error .insufficientFunds ∧
    ∃ b2, lookupA "A" (applyStep stBase (.hold "m" "A" .white 20)).balances = some b2 ∧
      0 ≤ b2 := by
  constructor
  · exact claim_C5.1 stBase "m" "A" .white 150 100 (by decide) (by decide) (by decide)
  · exact claim_C5.2 stBase (applyStep stBase (.hold "m" "A" .white 20)) "m" "A" .white 20
      (by rfl) "A" 100 (by decide) (by decide)

/-- Staked match with no escrow row, used as the C8 counterexample state. -/
def st8 : St :=
  { balances := [], ledger := [], escrows := [], matchTable := [("m", mOpen20)],
    users := [], pendingStake := [], pendingChallenges := [] }

/-- C8 counterexample: a `resolveMatch` call with outcome `W` and no
`winnerUserId` does not always fail — on a match without an escrow row it
succeeds and even mutates the match record (result recorded as `W`). -/
theorem claim_C8_counterexample :
    (resolveMatch st8 "m" "g" .W none none none).isOk = true ∧
    (lookupA "m" (applyStep st8 (.resolve "m" "g" .W none none none)).matchTable).map
        (·.result) = some (some .W) := by
  decide

/-- C8, amended: a `resolveMatch` call with outcome `W` and no resolvable
`winnerUserId`, on a match with no recorded result and an escrow row holding
a nonzero stake, fails with `WINNER_REQUIRED`; the enclosing transaction
(this model's `Except.error`) is aborted entirely, so no partial ledger
write, balance change or record change is observable.  (With no escrow or
all-zero holds the call instead succeeds as a bookkeeping no-op, as the
counterexample shows.) -/
theorem claim_C8 (st : St) (mid g : String) (wu bu : Option String) (m : MatchRec)
    (e : Escrow) (hm : lookupA mid st.matchTable = some m) (hres : m.result = none)
    (he : lookupA mid st.escrows = some e) (hnz : ¬(e.whiteHold = 0 ∧ e.blackHold = 0)) :
    resolveMatch st mid g .W none wu bu = .error .winnerRequired := by
  simp [resolveMatch, hm, hres, settleEscrow, he, hnz]

/-- C8 witness: the amended theorem applied to the held-stakes scenario. -/
theorem claim_C8_witness :
    resolveMatch stHeld2 "m" "g1" .W none (some "A") (some "B")
      = .error .winnerRequired :=
  claim_C8 stHeld2 "m" "g1" (some "A") (some "B")
    { stakeCC := 20, whiteId := none, blackId := none,
      lichessGameId := none, result := none }
    { whiteHold := 20, blackHold := 20, status := .held }
    (by decide) (by decide) (by decide) (by decide)

/-- A successful `ensureTx` never touches the escrow or match tables. -/
theorem ensureTx_ok_shape {st st2 : St} {u : String} {t : TxType} {a : Int}
    {ref : Option String} (hok : ensureTx st u t a ref = .ok st2) :
    st2.escrows = st.escrows ∧ st2.matchTable = st.matchTable := by
  rcases ref with _ | g
  · cases hb : lookupA u st.balances with
    | none => simp [ensureTx, hb] at hok
    | some b =>
      rw [ensureTx_none_ref hb] at hok
      cases hok
      exact ⟨rfl, rfl⟩
  · cases hf : findTxL st.ledger u t (some g) with
    | some e =>
      rw [ensureTx_dup hf] at hok
      cases hok
      exact ⟨rfl, rfl⟩
    | none =>
      cases hb : lookupA u st.balances with
      | none => simp [ensureTx, hf, hb] at hok
      | some b =>
        rw [ensureTx_fresh hf hb] at hok
        cases hok
        exact ⟨rfl, rfl⟩

/-- A successful refund leg never touches the escrow or match tables. -/
theorem refundSide_ok_shape {st st2 : St} {g : String} {uid : Option String}
    {amt : Int} (hok : refundSide st g uid amt = .ok st2) :
    st2.escrows = st.escrows ∧ st2.matchTable = st.matchTable := by
  rcases uid with _ | u
  · simp only [refundSide] at hok
    cases hok
    exact ⟨rfl, rfl⟩
  · by_cases hamt : 0 < amt
    · simp only [refundSide, if_pos hamt] at hok
      exact ensureTx_ok_shape hok
    · simp only [refundSide, if_neg hamt] at hok
      cases hok
      exact ⟨rfl, rfl⟩

/-- A successful draw/abort settlement never touches the match table. -/
theorem refundFlow_ok_matchTable {st st2 : St} {mid g : String} {wu bu : Option String}
    {sw sb : Int} (hok : refundFlow st mid g wu bu sw sb = .ok st2) :
    st2.matchTable = st.matchTable := by
  unfold refundFlow at hok
  cases hA : refundSide st g wu sw with
  | error err => simp only [hA] at hok; cases hok
  | ok stA =>
    simp only [hA] at hok
    cases hB : refundSide stA g bu sb with
    | error err => simp only [hB] at hok; cases hok
    | ok stB =>
      simp only [hB] at hok
      cases hok
      exact ((refundSide_ok_shape hB).2).trans (refundSide_ok_shape hA).2

/-- A successful decisive settlement never touches the match table. -/
theorem winFlow_ok_matchTable {st st2 : St} {mid g winner : String}
    {loser : Option String} {own los : Int}
    (hok : winFlow st mid g winner loser own los = .ok st2) :
    st2.matchTable = st.matchTable := by
  unfold winFlow at hok
  cases hA : (if 0 < own then ensureTx st winner .refund own (some g) else .ok st) with
  | error err => simp only [hA] at hok; cases hok
  | ok stA =>
    simp only [hA] at hok
    have hA2 : stA.matchTable = st.matchTable := by
      by_cases h : 0 < own
      · rw [if_pos h] at hA; exact (ensureTx_ok_shape hA).2
      · rw [if_neg h] at hA; cases hA; rfl
    cases hB : (if 0 < los then ensureTx stA winner .gain los (some g) else .ok stA) with
    | error err => simp only [hB] at hok; cases hok
    | ok stB =>
      simp only [hB] at hok
      have hB2 : stB.matchTable = stA.matchTable := by
        by_cases h : 0 < los
        · rw [if_pos h] at hB; exact (ensureTx_ok_shape hB).2
        · rw [if_neg h] at hB; cases hB; rfl
      cases hC : (match loser with
                  | some l => ensureTx stB l .stake_release 0 (some g)
                  | none => .ok stB) with
      | error err => simp only [hC] at hok; cases hok
      | ok stC =>
        simp only [hC] at hok
        have hC2 : stC.matchTable = stB.matchTable := by
          rcases loser with _ | l
          · simp only [] at hC; cases hC; rfl
          · simp only [] at hC; exact (ensureTx_ok_shape hC).2
        cases hok
        exact (hC2.trans hB2).trans hA2

/-- A successful escrow settlement never touches the match table. -/
theorem settleEscrow_ok_matchTable {st st2 : St} {mid g : String} {r : Result}
    {w wu bu : Option String} {e? : Option Escrow}
    (hok : settleEscrow st mid g r w wu bu e? = .ok st2) :
    st2.matchTable = st.matchTable := by
  cases e? with
  | none =>
    simp only [settleEscrow, Option.isNone_none, true_or, if_pos] at hok
    cases hok
    rfl
  | some e =>
    by_cases hz : e.whiteHold = 0 ∧ e.blackHold = 0
    · simp only [settleEscrow] at hok
      rw [if_pos (by simp [hz])] at hok
      cases hok
      rfl
    · simp only [settleEscrow] at hok
      rw [if_neg (by simp [hz])] at hok
      by_cases hr1 : r = .D ∨ r = .abort
      · rw [if_pos hr1] at hok
        exact refundFlow_ok_matchTable hok
      · rw [if_neg hr1] at hok
        by_cases hr2 : r = .W
        · rw [if_pos hr2] at hok
          rcases w with _ | win
          · cases hok
          · simp only [] at hok
            exact winFlow_ok_matchTable hok
        · rw [if_neg hr2] at hok
          cases hok
          rfl

/-- A successful `resolveMatch` call either was a no-op on an
already-resolved match, or it has recorded the game id and result on the
match row. -/
theorem resolveMatch_ok_result {st st2 : St} {mid g : String} {r : Result}
    {w wu bu : Option String}
    (hok : resolveMatch st mid g r w wu bu = .ok st2) :
    (st2 = st ∧ ∃ m, lookupA mid st.matchTable = some m ∧ m.result.isSome = true) ∨
      (∃ m, lookupA mid st.matchTable = some m ∧ m.result = none ∧
        lookupA mid st2.matchTable =
          some { m with lichessGameId := some g, result := some r }) := by
  unfold resolveMatch at hok
  cases hm : lookupA mid st.matchTable with
  | none => simp only [hm] at hok; cases hok
  | some m =>
    simp only [hm] at hok
    by_cases hres : m.result.isSome = true
    · rw [if_pos hres] at hok
      cases hok
      exact Or.inl ⟨rfl, m, rfl, hres⟩
    · rw [if_neg hres] at hok
      refine Or.inr ⟨m, rfl, Option.not_isSome_iff_eq_none.mp hres, ?_⟩
      have h2 := settleEscrow_ok_matchTable hok
      rw [h2]
      simp only []
      rw [lookupA_updateA_self, hm]
      rfl

/-- C3: `resolveMatch` is idempotent.  A wager whose match row already has a
terminal outcome recorded makes the call a no-op, and a second call with
identical arguments after a successful call returns the state of the first
call unchanged: zero new ledger rows and no balance movement. -/
theorem claim_C3 (st : St) (mid g : String) (r : Result) (w wu bu : Option String) :
    ((∃ m, lookupA mid st.matchTable = some m ∧ m.result.isSome = true) →
        resolveMatch st mid g r w wu bu = .ok st) ∧
    (∀ st2, resolveMatch st mid g r w wu bu = .ok st2 →
        resolveMatch st2 mid g r w wu bu = .ok st2) := by
  constructor
  · rintro ⟨m, hm, hsome⟩
    simp [resolveMatch, hm, hsome]
  · intro st2 hok
    rcases resolveMatch_ok_result hok with ⟨heq, m, hm, hsome⟩ | ⟨m, hm, hnone, hm2⟩
    · subst heq
      simp [resolveMatch, hm, hsome]
    · simp [resolveMatch, hm2]

/-- C3 witness: after resolving the held-stakes scenario as a draw, an
identical second call is accepted and returns the very same state. -/
theorem claim_C3_witness :
    resolveMatch (applyStep stHeld2 (.resolve "m" "g1" .D none (some "A") (some "B")))
        "m" "g1" .D none (some "A") (some "B")
      = .ok (applyStep stHeld2 (.resolve "m" "g1" .D none (some "A") (some "B"))) :=
  (claim_C3 stHeld2 "m" "g1" .D none (some "A") (some "B")).2
    (applyStep stHeld2 (.resolve "m" "g1" .D none (some "A") (some "B"))) (by rfl)

/-- Characterization of the draw/abort settlement leg when both holds are
nonzero, the side accounts are distinct, present and funded, and both refund
idempotency keys are fresh. -/
theorem refundFlow_pair {st : St} (mid g uw ub : String) (sw sb bw bb : Int)
    (hwpos : 0 < sw) (hbpos : 0 < sb) (hne : uw ≠ ub)
    (hbw : lookupA uw st.balances = some bw) (hbb : lookupA ub st.balances = some bb)
    (hfw : findTxL st.ledger uw .refund (some g) = none)
    (hfb : findTxL st.ledger ub .refund (some g) = none) :
    refundFlow st mid g (some uw) (some ub) sw sb =
      .ok { st with
        balances := updateA ub (· + sb) (updateA uw (· + sw) st.balances),
        ledger := ⟨ub, .refund, sb, some g⟩ :: ⟨uw, .refund, sw, some g⟩ :: st.ledger,
        escrows := updateA mid (fun ee => { ee with status := .refunded }) st.escrows } := by
  have h2f : findTxL (postTx st uw .refund sw (some g)).ledger ub .refund (some g) = none := by
    show findTxL ((⟨uw, .refund, sw, some g⟩ : TxEntry) :: st.ledger) ub .refund (some g) = none
    rw [findTxL_cons_ne]
    · exact hfb
    · rintro ⟨h1, -, -⟩
      exact hne h1
  have h2b : lookupA ub (postTx st uw .refund sw (some g)).balances = some bb := by
    show lookupA ub (updateA uw (· + sw) st.balances) = some bb
    rw [lookupA_updateA_ne uw ub (fun h => hne h.symm)]
    exact hbb
  simp only [refundFlow, refundSide, if_pos hwpos, if_pos hbpos,
    ensureTx_fresh hfw hbw, ensureTx_fresh h2f h2b]
  rfl

theorem resolveMatch_refund_pair
    (st : St) (mid g uw ub : String) (m : MatchRec) (e : Escrow) (bw bb : Int)
    (r : Result) (w : Option String)
    (hm : lookupA mid st.matchTable = some m) (hres : m.result = none)
    (he : lookupA mid st.escrows = some e)
    (hr : r = .D ∨ r = .abort)
    (hwpos : 0 < e.whiteHold) (hbpos : 0 < e.blackHold)
    (hne : uw ≠ ub)
    (hbw : lookupA uw st.balances = some bw) (hbb : lookupA ub st.balances = some bb)
    (hfw : findTxL st.ledger uw .refund (some g) = none)
    (hfb : findTxL st.ledger ub .refund (some g) = none) :
    resolveMatch st mid g r w (some uw) (some ub) =
      .ok { st with
        balances := updateA ub (· + e.blackHold) (updateA uw (· + e.whiteHold) st.balances),
        ledger := ⟨ub, .refund, e.blackHold, some g⟩ :: ⟨uw, .refund, e.whiteHold, some g⟩ :: st.ledger,
        escrows := updateA mid (fun ee => { ee with status := .refunded }) st.escrows,
        matchTable := updateA mid (fun mm => { mm with lichessGameId := some g, result := some r }) st.matchTable } := by
  have hnz : ¬(e.whiteHold = 0 ∧ e.blackHold = 0) := by
    rintro ⟨h1, h2⟩
    omega
  simp only [resolveMatch, hm, hres, Option.isSome_none, Bool.false_eq_true, if_false, he]
  simp only [settleEscrow, Option.map_some', Option.getD_some, Option.isNone_some,
    Bool.false_eq_true, false_or, if_neg hnz, if_pos hr]
  exact refundFlow_pair mid g uw ub e.whiteHold e.blackHold bw bb
    hwpos hbpos hne hbw hbb hfw hfb

/-- C4: on a wager resolved as draw or abort whose escrow rows hold nonzero
stakes (with both side accounts supplied, distinct, having balance rows, and
fresh refund keys), `resolveMatch` refunds each side's hold in full through
`refund` ledger rows keyed by `(accountId, refund, externalGameId)` and marks
the escrow refunded; in the concrete two-player stake-20 draw scenario both
balances return to 100 with exactly two refund rows. -/
theorem claim_C4 :
    (∀ (st : St) (mid g uw ub : String) (m : MatchRec) (e : Escrow) (bw bb : Int)
        (r : Result) (w : Option String),
      lookupA mid st.matchTable = some m → m.result = none →
      lookupA mid st.escrows = some e →
      (r = .D ∨ r = .abort) →
      0 < e.whiteHold → 0 < e.blackHold → uw ≠ ub →
      lookupA uw st.balances = some bw → lookupA ub st.balances = some bb →
      findTxL st.ledger uw .refund (some g) = none →
      findTxL st.ledger ub .refund (some g) = none →
      ∃ st2, resolveMatch st mid g r w (some uw) (some ub) = .ok st2 ∧
        lookupA uw st2.balances = some (bw + e.whiteHold) ∧
        lookupA ub st2.balances = some (bb + e.blackHold) ∧
        st2.ledger = ⟨ub, .refund, e.blackHold, some g⟩ ::
          ⟨uw, .refund, e.whiteHold, some g⟩ :: st.ledger ∧
        (lookupA mid st2.escrows).map (·.status) = some .refunded) ∧
    (lookupA "A" (applyStep stHeld2 (.resolve "m" "g1" .D none (some "A") (some "B"))).balances
        = some 100 ∧
     lookupA "B" (applyStep stHeld2 (.resolve "m" "g1" .D none (some "A") (some "B"))).balances
        = some 100 ∧
     ((applyStep stHeld2 (.resolve "m" "g1" .D none (some "A") (some "B"))).ledger.filter
        (fun en => en.txType == .refund)).length = 2 ∧
     (lookupA "m" (applyStep stHeld2 (.resolve "m" "g1" .D none (some "A") (some "B"))).escrows).map
        (·.status) = some .refunded) := by
  constructor
  · intro st mid g uw ub m e bw bb r w hm hres he hr hwpos hbpos hne hbw hbb hfw hfb
    refine ⟨_, resolveMatch_refund_pair st mid g uw ub m e bw bb r w
      hm hres he hr hwpos hbpos hne hbw hbb hfw hfb, ?_, ?_, rfl, ?_⟩
    · show lookupA uw (updateA ub _ (updateA uw _ st.balances)) = _
      rw [lookupA_updateA_ne ub uw hne, lookupA_updateA_self, hbw]
      rfl
    · show lookupA ub (updateA ub _ (updateA uw _ st.balances)) = _
      rw [lookupA_updateA_self, lookupA_updateA_ne uw ub (fun h => hne h.symm), hbb]
      rfl
    · show (lookupA mid (updateA mid _ st.escrows)).map _ = _
      rw [lookupA_updateA_self, he]
      rfl
  · decide

/-- C4 witness: the theorem applied to the two-player stake-20 draw scenario. -/
theorem claim_C4_witness :
    ∃ st2, resolveMatch stHeld2 "m" "g1" .D none (some "A") (some "B") = .ok st2 ∧
      lookupA "A" st2.balances = some (80 + 20) ∧
      lookupA "B" st2.balances = some (80 + 20) ∧
      st2.ledger = ⟨"B", .refund, 20, some "g1"⟩ :: ⟨"A", .refund, 20, some "g1"⟩ ::
        stHeld2.ledger ∧
      (lookupA "m" st2.escrows).map (·.status) = some .refunded :=
  claim_C4.1 stHeld2 "m" "g1" "A" "B"
    { stakeCC := 20, whiteId := none, blackId := none,
      lichessGameId := none, result := none }
    { whiteHold := 20, blackHold := 20, status := .held }
    80 80 .D none (by decide) (by decide) (by decide) (Or.inl rfl) (by decide) (by decide)
    (by decide) (by decide) (by decide) (by decide) (by decide)

/-- Digested summary of the C2 scenario: a finish signal reporting that the
white player (the acting user, linked as "alice") won against "bob". -/
def sumC2 : GameSummary :=
  { winner := some .white, statusDraw := false,
    whiteName := some "alice", blackName := some "bob" }

/-- Scenario state after the start signal linked the staked match to game g1. -/
def stLinked : St := gameStart stHeld2 "A" "g1"

/-- End state of the C2 scenario: the finish signal processed for account A. -/
def stC2 : St := gameFinish stLinked "A" "g1" "f1" sumC2

/-- C2: evaluation of the finish pipeline at the claimed scenario (A and B at
balance 100, stakes of 20 held, finish signal reporting that A won).  The
claimed end state is A 120 / B 80 / escrow `resolved` / one `gain` row for A
and one zero-amount `stake_release` row for B.  The code instead leaves both
balances at 80, the escrow still `held`, and creates no settlement rows at
all: the handler's `match.upsert` records `result` before `resolveMatch`
runs, and `resolveMatch`'s `if (match.result) return` guard then makes the
settlement a no-op (and since the staked flows never populate
`whiteId`/`blackId`, the winner/loser sides could not have been credited
as specified either). -/
theorem claim_C2_code_divergence :
    lookupA "A" stC2.balances = some 80 ∧
    lookupA "B" stC2.balances = some 80 ∧
    (lookupA "m" stC2.escrows).map (·.status) = some .held ∧
    (stC2.ledger.filter fun en => en.txType == .gain).length = 0 ∧
    (stC2.ledger.filter fun en => en.txType == .stake_release).length = 0 ∧
    (stC2.ledger.filter fun en => en.txType == .refund).length = 0 ∧
    (lookupA "m" stC2.matchTable).map (·.result) = some (some .W) := by
  decide

/-- A `gameFinish` on a fresh external game id (no Match row yet) with the
acting user funded and a fresh `(u, gain, gid)` key credits exactly the flat
casual reward: the upsert creates a zero-stake Match row, escrow is skipped,
and one `gain` ledger row keyed by the game id is written. -/
theorem gameFinish_casual_fresh (st : St) (u gid fid : String) (sum : GameSummary)
    (b : Int)
    (hng : findMatchByGid st gid = none)
    (hb : lookupA u st.balances = some b)
    (hfresh : ledgerHas st u .gain (some gid) = false) :
    (gameFinish st u gid fid sum).balances
        = updateA u (· + casualDelta sum (computeIsWhite st u sum)) st.balances ∧
    (gameFinish st u gid fid sum).ledger
        = ⟨u, .gain, casualDelta sum (computeIsWhite st u sum), some gid⟩ :: st.ledger ∧
    (gameFinish st u gid fid sum).escrows = st.escrows ∧
    (∃ m2, findMatchByGid (gameFinish st u gid fid sum) gid = some (fid, m2) ∧
      m2.stakeCC = 0) ∧
    ledgerHas (gameFinish st u gid fid sum) u .gain (some gid) = true := by
  have hfind := ledgerHas_eq_false hfresh
  have h00 : ¬(0 : Int) < 0 := by omega
  simp only [gameFinish, upsertMatchByGid, hng, if_neg h00, casualRewardTx,
    ledgerHas, hb, hfind, Option.isSome_none, Bool.false_eq_true, if_false]
  refine ⟨trivial, trivial, trivial, ?_, ?_⟩
  · simp only [findMatchByGid, List.find?, beq_self_eq_true]
    exact ⟨_, rfl, rfl⟩
  · simp [ledgerHas, findTxL, List.find?]

/-- A `gameFinish` re-delivered for a game whose Match row exists with zero
stake and whose `(u, gain, gid)` ledger key already exists changes neither
the balances nor the ledger: the reward transaction aborts on the unique
index and the error is swallowed. -/
theorem gameFinish_casual_dup (st1 : St) (u gid fid2 : String) (sum : GameSummary)
    (mid2 : String) (m2 : MatchRec)
    (hfind : findMatchByGid st1 gid = some (mid2, m2)) (hstake : ¬0 < m2.stakeCC)
    (hdup : ledgerHas st1 u .gain (some gid) = true) :
    (gameFinish st1 u gid fid2 sum).balances = st1.balances ∧
    (gameFinish st1 u gid fid2 sum).ledger = st1.ledger := by
  have hdup2 : (findTxL st1.ledger u .gain (some gid)).isSome = true := hdup
  cases hr2 : computeResult sum (computeIsWhite st1 u sum) with
  | none =>
    simp only [gameFinish, upsertMatchByGid, hfind, hr2, if_neg hstake,
      casualRewardTx, ledgerHas, hdup2]
    cases hb2 : lookupA u st1.balances with
    | none => simp [hb2]
    | some b2 => simp [hb2]
  | some r =>
    have hstake2 : ¬0 < ({ m2 with result := some r } : MatchRec).stakeCC := hstake
    simp only [gameFinish, upsertMatchByGid, hfind, hr2, if_neg hstake2,
      casualRewardTx, ledgerHas, hdup2]
    cases hb2 : lookupA u st1.balances with
    | none => simp [hb2]
    | some b2 => simp [hb2]

/-- C6: a finish signal for a fresh external game (the upserted wager row has
`stakeCC = 0`) skips escrow entirely and credits the flat casual reward as a
single `gain` ledger row keyed by the external game id — draw 3,
no-decision 1, win 8, loss/indeterminate 1 — and a second delivery of the
identical payload leaves the ledger and all balances exactly as after the
first delivery (the duplicate insert violates the unique ledger index, the
transaction rolls back, and the error is swallowed). -/
theorem claim_C6 (st : St) (u gid fid fid2 : String) (sum : GameSummary) (b : Int)
    (hng : findMatchByGid st gid = none)
    (hb : lookupA u st.balances = some b)
    (hfresh : ledgerHas st u .gain (some gid) = false) :
    (gameFinish st u gid fid sum).escrows = st.escrows ∧
    (gameFinish st u gid fid sum).ledger
        = ⟨u, .gain, casualDelta sum (computeIsWhite st u sum), some gid⟩ :: st.ledger ∧
    lookupA u (gameFinish st u gid fid sum).balances
        = some (b + casualDelta sum (computeIsWhite st u sum)) ∧
    (gameFinish (gameFinish st u gid fid sum) u gid fid2 sum).ledger
        = (gameFinish st u gid fid sum).ledger ∧
    (gameFinish (gameFinish st u gid fid sum) u gid fid2 sum).balances
        = (gameFinish st u gid fid sum).balances ∧
    (sum.statusDraw = true → casualDelta sum (computeIsWhite st u sum) = 3) ∧
    (sum.statusDraw = false → sum.winner = none →
        casualDelta sum (computeIsWhite st u sum) = 1) ∧
    (sum.statusDraw = false → ∀ c, sum.winner = some c →
        (((c = .white ∧ computeIsWhite st u sum = some true) ∨
            (c = .black ∧ computeIsWhite st u sum = some false)) →
          casualDelta sum (computeIsWhite st u sum) = 8) ∧
        (¬((c = .white ∧ computeIsWhite st u sum = some true) ∨
            (c = .black ∧ computeIsWhite st u sum = some false)) →
          casualDelta sum (computeIsWhite st u sum) = 1)) := by
  obtain ⟨hbal, hled, hesc, ⟨m2, hfind2, hstake2⟩, hdup⟩ :=
    gameFinish_casual_fresh st u gid fid sum b hng hb hfresh
  obtain ⟨hdb, hdl⟩ := gameFinish_casual_dup (gameFinish st u gid fid sum) u gid fid2 sum
    fid m2 hfind2 (by rw [hstake2]; omega) hdup
  refine ⟨hesc, hled, ?_, hdl, hdb, ?_, ?_, ?_⟩
  · rw [hbal, lookupA_updateA_self, hb]
    rfl
  · intro hd
    simp [casualDelta, hd]
  · intro hd hw
    simp [casualDelta, hd, hw]
  · intro hd c hw
    constructor
    · intro hcase
      simp [casualDelta, hd, hw, if_pos hcase]
    · intro hcase
      simp [casualDelta, hd, hw, if_neg hcase]

/-- Concrete casual scenario: account A (balance 100, linked as "alice")
finishes a fresh casual game g9 that white ("alice") won. -/
def stCas : St :=
  { balances := [("A", 100)], ledger := [], escrows := [], matchTable := [],
    users := [("A", { lichessUsername := some "alice" })],
    pendingStake := [], pendingChallenges := [] }

/-- Summary of the casual game used by the C6 witness: white "alice" beat
"zoe", no draw. -/
def sumCasW : GameSummary :=
  { winner := some .white, statusDraw := false,
    whiteName := some "alice", blackName := some "zoe" }

/-- C6 witness: the theorem applied to the concrete casual win scenario. -/
theorem claim_C6_witness :
    (gameFinish stCas "A" "g9" "f1" sumCasW).escrows = stCas.escrows ∧
    (gameFinish stCas "A" "g9" "f1" sumCasW).ledger
        = ⟨"A", .gain, casualDelta sumCasW (computeIsWhite stCas "A" sumCasW), some "g9"⟩ ::
          stCas.ledger ∧
    lookupA "A" (gameFinish stCas "A" "g9" "f1" sumCasW).balances
        = some (100 + casualDelta sumCasW (computeIsWhite stCas "A" sumCasW)) ∧
    (gameFinish (gameFinish stCas "A" "g9" "f1" sumCasW) "A" "g9" "f2" sumCasW).ledger
        = (gameFinish stCas "A" "g9" "f1" sumCasW).ledger ∧
    (gameFinish (gameFinish stCas "A" "g9" "f1" sumCasW) "A" "g9" "f2" sumCasW).balances
        = (gameFinish stCas "A" "g9" "f1" sumCasW).balances ∧
    casualDelta sumCasW (computeIsWhite stCas "A" sumCasW) = 8 := by
  have h := claim_C6 stCas "A" "g9" "f1" "f2" sumCasW 100 (by decide) (by decide) (by decide)
  refine ⟨h.1, h.2.1, h.2.2.1, h.2.2.2.1, h.2.2.2.2.1, ?_⟩
  exact (h.2.2.2.2.2.2.2 rfl .white rfl).1 (Or.inl ⟨rfl, by decide⟩)

/-- C7: timeout correctness.  On a linked-less wager (no external game id, no
started flag) whose escrow holds two positive stakes for two distinct funded
accounts with fresh refund keys, both the queue and the challenge timeout
callbacks refund both sides in full and drive the wager to the terminal
`abort` result with the escrow `refunded`; and once a start signal has
attached an external game id to the wager, a subsequently firing timer (of
either kind) performs no refund and changes nothing at all. -/
theorem claim_C7 (st : St) (mid cg a b : String) (m : MatchRec) (e : Escrow) (ba bb : Int)
    (hm : lookupA mid st.matchTable = some m) (hres : m.result = none)
    (hgid : m.lichessGameId = none)
    (he : lookupA mid st.escrows = some e) (hwh : 0 < e.whiteHold) (hbh : 0 < e.blackHold)
    (hne : a ≠ b)
    (hba : lookupA a st.balances = some ba) (hbb2 : lookupA b st.balances = some bb)
    (hfa : findTxL st.ledger a .refund (some cg) = none)
    (hfb : findTxL st.ledger b .refund (some cg) = none)
    (hstart : startedFlag st mid = false) :
    (lookupA a (queueTimeoutCb st mid cg a b).balances = some (ba + e.whiteHold) ∧
     lookupA b (queueTimeoutCb st mid cg a b).balances = some (bb + e.blackHold) ∧
     (lookupA mid (queueTimeoutCb st mid cg a b).matchTable).map (·.result)
        = some (some .abort) ∧
     (lookupA mid (queueTimeoutCb st mid cg a b).escrows).map (·.status)
        = some .refunded) ∧
    (lookupA a (challengeTimeoutCb st mid cg a b).balances = some (ba + e.whiteHold) ∧
     lookupA b (challengeTimeoutCb st mid cg a b).balances = some (bb + e.blackHold) ∧
     (lookupA mid (challengeTimeoutCb st mid cg a b).matchTable).map (·.result)
        = some (some .abort) ∧
     (lookupA mid (challengeTimeoutCb st mid cg a b).escrows).map (·.status)
        = some .refunded) ∧
    (∀ u g2, lookupA u st.pendingStake = some mid →
      challengeTimeoutCb (gameStart st u g2) mid cg a b = gameStart st u g2 ∧
      queueTimeoutCb (gameStart st u g2) mid cg a b = gameStart st u g2) := by
  have hstep := resolveMatch_refund_pair st mid cg a b m e ba bb .abort none
    hm hres he (Or.inr rfl) hwh hbh hne hba hbb2 hfa hfb
  have hlka : lookupA a (updateA b (· + e.blackHold) (updateA a (· + e.whiteHold) st.balances))
      = some (ba + e.whiteHold) := by
    rw [lookupA_updateA_ne b a hne, lookupA_updateA_self, hba]
    rfl
  have hlkb : lookupA b (updateA b (· + e.blackHold) (updateA a (· + e.whiteHold) st.balances))
      = some (bb + e.blackHold) := by
    rw [lookupA_updateA_self, lookupA_updateA_ne a b (fun h => hne h.symm), hbb2]
    rfl
  have hlkm : (lookupA mid (updateA mid
      (fun mm => { mm with lichessGameId := some cg, result := some Result.abort })
      st.matchTable)).map (·.result) = some (some .abort) := by
    rw [lookupA_updateA_self, hm]
    rfl
  have hlke : (lookupA mid (updateA mid (fun ee => { ee with status := .refunded })
      st.escrows)).map (·.status) = some .refunded := by
    rw [lookupA_updateA_self, he]
    rfl
  refine ⟨?_, ?_, ?_⟩
  · simp only [queueTimeoutCb, hm, hgid, Option.isSome_none, startedFlag, hstep]
    simp only [eq_self_iff_true, if_true]
    exact ⟨hlka, hlkb, hlkm, hlke⟩
  · simp only [challengeTimeoutCb, hm, hgid, Option.isSome_none, hstart, hstep]
    simp only [eq_self_iff_true, and_self, if_true]
    exact ⟨hlka, hlkb, hlkm, hlke⟩
  · intro u g2 hpend
    have hmt : (lookupA mid (gameStart st u g2).matchTable).map (·.lichessGameId)
        = some (some g2) := by
      simp only [gameStart, hpend, hm]
      cases hpc : lookupA mid st.pendingChallenges with
      | none =>
        simp only [hpc]
        rw [lookupA_updateA_self, hm]
        rfl
      | some p =>
        simp only [hpc]
        rw [lookupA_updateA_self, hm]
        rfl
    cases hmg : lookupA mid (gameStart st u g2).matchTable with
    | none => rw [hmg] at hmt; cases hmt
    | some mg =>
      rw [hmg] at hmt
      have hsome : mg.lichessGameId.isSome = true := by
        have : mg.lichessGameId = some g2 := by
          simpa using hmt
        rw [this]
        rfl
      constructor
      · simp [challengeTimeoutCb, hmg, hsome]
      · simp [queueTimeoutCb, hmg, hsome]

/-- C7 witness: the theorem applied to the held-stakes pair scenario. -/
theorem claim_C7_witness :
    (lookupA "A" (queueTimeoutCb stHeld2 "m" "c1" "A" "B").balances = some (80 + 20) ∧
     lookupA "B" (queueTimeoutCb stHeld2 "m" "c1" "A" "B").balances = some (80 + 20) ∧
     (lookupA "m" (queueTimeoutCb stHeld2 "m" "c1" "A" "B").matchTable).map (·.result)
        = some (some .abort) ∧
     (lookupA "m" (queueTimeoutCb stHeld2 "m" "c1" "A" "B").escrows).map (·.status)
        = some .refunded) ∧
    (lookupA "A" (challengeTimeoutCb stHeld2 "m" "c1" "A" "B").balances = some (80 + 20) ∧
     lookupA "B" (challengeTimeoutCb stHeld2 "m" "c1" "A" "B").balances = some (80 + 20) ∧
     (lookupA "m" (challengeTimeoutCb stHeld2 "m" "c1" "A" "B").matchTable).map (·.result)
        = some (some .abort) ∧
     (lookupA "m" (challengeTimeoutCb stHeld2 "m" "c1" "A" "B").escrows).map (·.status)
        = some .refunded) ∧
    (challengeTimeoutCb (gameStart stHeld2 "A" "g1") "m" "c1" "A" "B"
        = gameStart stHeld2 "A" "g1" ∧
     queueTimeoutCb (gameStart stHeld2 "A" "g1") "m" "c1" "A" "B"
        = gameStart stHeld2 "A" "g1") := by
  have h := claim_C7 stHeld2 "m" "c1" "A" "B"
    { stakeCC := 20, whiteId := none, blackId := none,
      lichessGameId := none, result := none }
    { whiteHold := 20, blackHold := 20, status := .held }
    80 80 (by decide) (by decide) (by decide) (by decide) (by decide) (by decide)
    (by decide) (by decide) (by decide) (by decide) (by decide) (by decide)
  exact ⟨h.1, h.2.1, h.2.2 "A" "g1" (by decide)⟩

/-- A refund leg with a nonpositive amount is skipped. -/
theorem refundSide_zero {st : St} {g : String} {uid : Option String} {amt : Int}
    (h : ¬0 < amt) : refundSide st g uid amt = .ok st := by
  rcases uid with _ | u
  · rfl
  · simp [refundSide, if_neg h]

/-- Case analysis of the decisive settlement leg: under fresh winner keys and
nonnegative amounts it either throws (rolling the transaction back) or
succeeds having added exactly the two payout amounts to the balances and
flipped the escrow status from its held contribution to the resolved one. -/
theorem winFlow_cases (st : St) (mid g win : String) (loser : Option String)
    (own los : Int) (e : Escrow)
    (he : lookupA mid st.escrows = some e)
    (hro : 0 < own → findTxL st.ledger win .refund (some g) = none)
    (hgo : 0 < los → findTxL st.ledger win .gain (some g) = none)
    (hol0 : 0 ≤ own) (hlo0 : 0 ≤ los) (hInv : EscInv st) :
    (∃ err, winFlow st mid g win loser own los = .error err) ∨
    (∃ st2, winFlow st mid g win loser own los = .ok st2 ∧
      totalCredit st2 = totalCredit st + own + los - heldAmt e
        + heldAmt { e with status := EscrowStatus.resolved } ∧
      EscInv st2) := by
  have stepA : (∃ err, (if 0 < own then ensureTx st win .refund own (some g) else .ok st)
        = .error err) ∨
      (∃ stA, (if 0 < own then ensureTx st win .refund own (some g) else .ok st) = .ok stA ∧
        totalCredit stA = totalCredit st + own ∧ stA.escrows = st.escrows ∧
        (stA.ledger = st.ledger ∨
          stA.ledger = (⟨win, .refund, own, some g⟩ : TxEntry) :: st.ledger)) := by
    by_cases ho : 0 < own
    · rw [if_pos ho]
      cases hbw : lookupA win st.balances with
      | none =>
        refine Or.inl ⟨Err.recordNotFound, ?_⟩
        simp [ensureTx, hro ho, hbw]
      | some bw =>
        rw [ensureTx_fresh (hro ho) hbw]
        exact Or.inr ⟨_, rfl, totalCredit_postTx hbw, rfl, Or.inr rfl⟩
    · rw [if_neg ho]
      have h0 : own = 0 := by omega
      exact Or.inr ⟨st, rfl, by omega, rfl, Or.inl rfl⟩
  rcases stepA with ⟨err, hA⟩ | ⟨stA, hA, hAt, hAe, hAl⟩
  · refine Or.inl ⟨err, ?_⟩
    simp [winFlow, hA]
  · have stepB : (∃ err, (if 0 < los then ensureTx stA win .gain los (some g) else .ok stA)
          = .error err) ∨
        (∃ stB, (if 0 < los then ensureTx stA win .gain los (some g) else .ok stA)
            = .ok stB ∧
          totalCredit stB = totalCredit stA + los ∧ stB.escrows = stA.escrows) := by
      by_cases hl : 0 < los
      · have hfB : findTxL stA.ledger win .gain (some g) = none := by
          rcases hAl with h | h
          · rw [h]
            exact hgo hl
          · rw [h, findTxL_cons_ne]
            · exact hgo hl
            · rintro ⟨-, h2, -⟩
              simp at h2
        rw [if_pos hl]
        cases hbw2 : lookupA win stA.balances with
        | none =>
          refine Or.inl ⟨Err.recordNotFound, ?_⟩
          simp [ensureTx, hfB, hbw2]
        | some bw2 =>
          rw [ensureTx_fresh hfB hbw2]
          exact Or.inr ⟨_, rfl, totalCredit_postTx hbw2, rfl⟩
      · rw [if_neg hl]
        have h0 : los = 0 := by omega
        exact Or.inr ⟨stA, rfl, by omega, rfl⟩
    rcases stepB with ⟨err, hB⟩ | ⟨stB, hB, hBt, hBe⟩
    · refine Or.inl ⟨err, ?_⟩
      simp [winFlow, hA, hB]
    · have stepC : (∃ err, (match loser with
            | some l => ensureTx stB l .stake_release 0 (some g)
            | none => .ok stB : Except Err St) = .error err) ∨
          (∃ stC, (match loser with
            | some l => ensureTx stB l .stake_release 0 (some g)
            | none => .ok stB : Except Err St) = .ok stC ∧
            totalCredit stC = totalCredit stB ∧ stC.escrows = stB.escrows) := by
        rcases loser with _ | l
        · exact Or.inr ⟨stB, rfl, rfl, rfl⟩
        · show (∃ err, ensureTx stB l TxType.stake_release 0 (some g) = .error err) ∨
            (∃ stC, ensureTx stB l TxType.stake_release 0 (some g) = .ok stC ∧
              totalCredit stC = totalCredit stB ∧ stC.escrows = stB.escrows)
          cases hC0 : ensureTx stB l TxType.stake_release 0 (some g) with
          | error err => exact Or.inl ⟨err, rfl⟩
          | ok stC =>
            exact Or.inr ⟨stC, rfl, (ensureTx_zero hC0).1, (ensureTx_zero hC0).2⟩
      rcases stepC with ⟨err, hC⟩ | ⟨stC, hC, hCt, hCe⟩
      · refine Or.inl ⟨err, ?_⟩
        simp [winFlow, hA, hB, hC]
      · have heC : lookupA mid stC.escrows = some e := by
          rw [hCe, hBe, hAe]
          exact he
        have hInvC : EscInv stC := by
          intro p hp
          rw [hCe, hBe, hAe] at hp
          exact hInv p hp
        refine Or.inr ⟨{ stC with escrows := updateA mid (fun ee => { ee with status := EscrowStatus.resolved }) stC.escrows }, ?_, ?_, ?_⟩
        · simp [winFlow, hA, hB, hC]
        · rw [totalCredit_escrow_status EscrowStatus.resolved heC]
          omega
        · intro p hp
          exact @mem_updateA Escrow (fun v => 0 ≤ v.whiteHold ∧ 0 ≤ v.blackHold) mid
            (fun ee => { ee with status := EscrowStatus.resolved }) stC.escrows
            (fun q hq => hInvC q hq) (fun v hv => hv) p hp

/-- Case analysis of one refund leg: with the side account present and its
refund key fresh whenever the amount is positive, the leg either throws or
succeeds having added exactly the amount to the balances. -/
theorem refundSide_cases (st : St) (g : String) (uid : Option String) (amt : Int)
    (hfresh : 0 < amt →
      ∃ u2, uid = some u2 ∧ findTxL st.ledger u2 .refund (some g) = none)
    (h0 : 0 ≤ amt) :
    (∃ err, refundSide st g uid amt = .error err) ∨
    (∃ stA, refundSide st g uid amt = .ok stA ∧
      totalCredit stA = totalCredit st + amt ∧ stA.escrows = st.escrows ∧
      (stA.ledger = st.ledger ∨ (0 < amt ∧ ∃ u2, uid = some u2 ∧
        stA.ledger = (⟨u2, .refund, amt, some g⟩ : TxEntry) :: st.ledger))) := by
  by_cases hpos : 0 < amt
  · obtain ⟨u2, hu2, hf⟩ := hfresh hpos
    subst hu2
    cases hbw : lookupA u2 st.balances with
    | none =>
      refine Or.inl ⟨Err.recordNotFound, ?_⟩
      simp [refundSide, if_pos hpos, ensureTx, hf, hbw]
    | some bw =>
      refine Or.inr ⟨postTx st u2 .refund amt (some g), ?_,
        totalCredit_postTx hbw, rfl, Or.inr ⟨hpos, u2, rfl, rfl⟩⟩
      simp [refundSide, if_pos hpos, ensureTx_fresh hf hbw]
  · have h00 : amt = 0 := by omega
    exact Or.inr ⟨st, refundSide_zero hpos, by omega, rfl, Or.inl rfl⟩

/-- Case analysis of the draw/abort settlement leg: under the wellformedness
conditions of `drawOkB` (side accounts supplied with fresh refund keys for
nonzero holds, distinct when both are nonzero) the leg either throws or
succeeds conserving the total credit. -/
theorem refundFlow_cases (st : St) (mid g : String) (wu bu : Option String) (e : Escrow)
    (hInv : EscInv st) (he : lookupA mid st.escrows = some e)
    (hheld : e.status = .held)
    (h0w : 0 ≤ e.whiteHold) (h0b : 0 ≤ e.blackHold)
    (hcond : drawOkB st g e wu bu = true) :
    (∃ err, refundFlow st mid g wu bu e.whiteHold e.blackHold = .error err) ∨
    (∃ st2, refundFlow st mid g wu bu e.whiteHold e.blackHold = .ok st2 ∧
      totalCredit st2 = totalCredit st ∧ EscInv st2) := by
  have hcw : 0 < e.whiteHold →
      ∃ u2, wu = some u2 ∧ findTxL st.ledger u2 .refund (some g) = none := by
    intro hpos
    rcases hwu : wu with _ | uw
    · exfalso
      rw [hwu] at hcond
      simp [drawOkB, hpos] at hcond
    · refine ⟨uw, rfl, ?_⟩
      rw [hwu] at hcond
      by_cases hlh : ledgerHas st uw .refund (some g) = true
      · exfalso
        simp [drawOkB, hpos, hlh] at hcond
      · exact ledgerHas_eq_false (by simpa using hlh)
  have hcb : 0 < e.blackHold →
      ∃ u2, bu = some u2 ∧ findTxL st.ledger u2 .refund (some g) = none := by
    intro hpos
    rcases hbu : bu with _ | ub
    · exfalso
      rw [hbu] at hcond
      simp [drawOkB, hpos] at hcond
    · refine ⟨ub, rfl, ?_⟩
      rw [hbu] at hcond
      by_cases hlh : ledgerHas st ub .refund (some g) = true
      · exfalso
        simp [drawOkB, hpos, hlh] at hcond
      · exact ledgerHas_eq_false (by simpa using hlh)
  have hcne : 0 < e.whiteHold → 0 < e.blackHold → wu ≠ bu := by
    intro hpw hpb
    by_cases hq : wu = bu
    · exfalso
      simp [drawOkB, hpw, hpb, hq] at hcond
    · exact hq
  rcases refundSide_cases st g wu e.whiteHold hcw h0w with ⟨err, h1⟩ | ⟨stA, h1, h1t, h1e, h1l⟩
  · refine Or.inl ⟨err, ?_⟩
    simp [refundFlow, h1]
  · have hcb2 : 0 < e.blackHold →
        ∃ u2, bu = some u2 ∧ findTxL stA.ledger u2 .refund (some g) = none := by
      intro hpb
      obtain ⟨ub, hub, hfb⟩ := hcb hpb
      refine ⟨ub, hub, ?_⟩
      rcases h1l with h | ⟨hwpos, uw, huw, h⟩
      · rw [h]
        exact hfb
      · have hne2 : uw ≠ ub := by
          intro hcontra
          exact (hcne hwpos hpb) (by rw [huw, hub, hcontra])
        rw [h, findTxL_cons_ne]
        · exact hfb
        · rintro ⟨hu, -, -⟩
          exact hne2 hu
    rcases refundSide_cases stA g bu e.blackHold hcb2 h0b with
      ⟨err, h2⟩ | ⟨stB, h2, h2t, h2e, h2l⟩
    · refine Or.inl ⟨err, ?_⟩
      simp [refundFlow, h1, h2]
    · have heB : lookupA mid stB.escrows = some e := by
        rw [h2e, h1e]
        exact he
      have hInvB : EscInv stB := by
        intro p hp
        rw [h2e, h1e] at hp
        exact hInv p hp
      refine Or.inr ⟨{ stB with escrows := updateA mid (fun ee => { ee with status := EscrowStatus.refunded }) stB.escrows }, ?_, ?_, ?_⟩
      · simp [refundFlow, h1, h2]
      · rw [totalCredit_escrow_status EscrowStatus.refunded heB]
        have hA : heldAmt e = e.whiteHold + e.blackHold := by
          simp [heldAmt, hheld]
        have hB2 : heldAmt { e with status := EscrowStatus.refunded } = 0 := by
          simp [heldAmt]
        omega
      · intro p hp
        exact @mem_updateA Escrow (fun v => 0 ≤ v.whiteHold ∧ 0 ≤ v.blackHold) mid
          (fun ee => { ee with status := EscrowStatus.refunded }) stB.escrows
          (fun q hq => hInvB q hq) (fun v hv => hv) p hp

/-- Case analysis of one `holdStake` call: under the wellformedness
conditions of `holdOkB` (fresh hold key, escrow absent or still held) it
either throws — leaving the state untouched — or succeeds conserving the
total credit and the escrow sanity invariant. -/
theorem holdStake_cases (st : St) (mid u : String) (c : Color) (stk : Int)
    (hInv : EscInv st) (hOk : holdOkB st mid u stk = true) :
    (∃ err, holdStake st mid u c stk = .error err) ∨
    (∃ st2, holdStake st mid u c stk = .ok st2 ∧
      totalCredit st2 = totalCredit st ∧ EscInv st2) := by
  by_cases hs : stk ≤ 0
  · refine Or.inr ⟨st, ?_, rfl, hInv⟩
    simp [holdStake, hs]
  · have hpos : 0 < stk := by omega
    have hconds : ledgerHas st u .stake_hold (some mid) = false ∧
        (match lookupA mid st.escrows with
         | none => True
         | some e => e.status = .held) := by
      by_cases h1 : ledgerHas st u .stake_hold (some mid) = true
      · exfalso
        simp [holdOkB, hpos, h1] at hOk
      · refine ⟨by simpa using h1, ?_⟩
        cases he : lookupA mid st.escrows with
        | none => trivial
        | some e =>
          by_cases h2 : e.status = .held
          · exact h2
          · exfalso
            simp [holdOkB, hpos, he, h2] at hOk
    obtain ⟨hfr, hesc⟩ := hconds
    have hfr2 := ledgerHas_eq_false hfr
    cases hb : lookupA u st.balances with
    | none =>
      refine Or.inl ⟨.insufficientFunds, ?_⟩
      simp [holdStake, if_neg hs, hb]
    | some bal =>
      by_cases hlt : bal < stk
      · refine Or.inl ⟨.insufficientFunds, ?_⟩
        simp [holdStake, if_neg hs, hb, hlt]
      · cases he : lookupA mid st.escrows with
        | none =>
          refine Or.inr ⟨{ postTx st u .stake_hold (-stk) (some mid) with escrows := (mid, { whiteHold := if c = .white then stk else 0, blackHold := if c = .black then stk else 0, status := .held }) :: (postTx st u .stake_hold (-stk) (some mid)).escrows }, ?_, ?_, ?_⟩
          · simp [holdStake, if_neg hs, hb, if_neg hlt, ensureTx_fresh hfr2 hb, postTx, he]
          · unfold totalCredit
            simp only [postTx]
            rw [sumBy_updateA (fun x => x) u (· + (-stk)) hb, sumBy_cons]
            have hnew : heldAmt { whiteHold := (if c = .white then stk else 0), blackHold := (if c = .black then stk else 0), status := .held } = stk := by
              cases c <;> simp [heldAmt]
            rw [hnew]
            ring
          · intro p hp
            simp only [postTx, List.mem_cons] at hp
            rcases hp with hp | hp
            · rw [hp]
              constructor
              · cases c <;> simp <;> omega
              · cases c <;> simp <;> omega
            · exact hInv p hp
        | some esc =>
          rw [he] at hesc
          refine Or.inr ⟨{ postTx st u .stake_hold (-stk) (some mid) with escrows := updateA mid (fun _ => { esc with whiteHold := esc.whiteHold + (if c = .white then stk else 0), blackHold := esc.blackHold + (if c = .black then stk else 0) }) (postTx st u .stake_hold (-stk) (some mid)).escrows }, ?_, ?_, ?_⟩
          · simp [holdStake, if_neg hs, hb, if_neg hlt, ensureTx_fresh hfr2 hb, postTx, he]
          · unfold totalCredit
            simp only [postTx]
            rw [sumBy_updateA (fun x => x) u (· + (-stk)) hb,
              sumBy_updateA heldAmt mid _ he]
            have hq : heldAmt { esc with whiteHold := esc.whiteHold + (if c = .white then stk else 0), blackHold := esc.blackHold + (if c = .black then stk else 0) } = heldAmt esc + stk := by
              cases c <;> simp [heldAmt, hesc] <;> ring
            rw [hq]
            ring
          · intro p hp
            have hw0 : (0 : Int) ≤ esc.whiteHold := (hInv (mid, esc) (lookupA_mem he)).1
            have hb0 : (0 : Int) ≤ esc.blackHold := (hInv (mid, esc) (lookupA_mem he)).2
            refine @mem_updateA Escrow (fun v => 0 ≤ v.whiteHold ∧ 0 ≤ v.blackHold) mid
              _ (postTx st u .stake_hold (-stk) (some mid)).escrows
              (fun q hq => hInv q hq) ?_ p hp
            intro v hv
            constructor
            · cases c <;> simp <;> omega
            · cases c <;> simp <;> omega

/-- Case analysis of `settleEscrow` under the wellformedness conditions of
`resolveOkB`: it either throws or succeeds conserving the total credit. -/
theorem settleEscrow_cases (st : St) (mid g : String) (r : Result) (w wu bu : Option String)
    (hInv : EscInv st) (hOk : resolveOkB st mid g r w wu bu = true) :
    (∃ err, settleEscrow st mid g r w wu bu (lookupA mid st.escrows) = .error err) ∨
    (∃ st2, settleEscrow st mid g r w wu bu (lookupA mid st.escrows) = .ok st2 ∧
      totalCredit st2 = totalCredit st ∧ EscInv st2) := by
  cases he : lookupA mid st.escrows with
  | none =>
    refine Or.inr ⟨st, ?_, rfl, hInv⟩
    simp [settleEscrow]
  | some e =>
    by_cases hz : e.whiteHold = 0 ∧ e.blackHold = 0
    · refine Or.inr ⟨st, ?_, rfl, hInv⟩
      simp [settleEscrow, hz]
    · simp only [resolveOkB, he] at hOk
      rw [Bool.or_eq_true] at hOk
      rcases hOk with h | h
      · exact absurd (of_decide_eq_true h) hz
      · rw [Bool.and_eq_true] at h
        obtain ⟨hh, hbr⟩ := h
        have hheld : e.status = .held := of_decide_eq_true hh
        have h0w : (0 : Int) ≤ e.whiteHold := (hInv (mid, e) (lookupA_mem he)).1
        have h0b : (0 : Int) ≤ e.blackHold := (hInv (mid, e) (lookupA_mem he)).2
        cases r with
        | L =>
          exact Or.inr ⟨st, settleEscrow_L st mid g w wu bu (some e), rfl, hInv⟩
        | D =>
          have hred : settleEscrow st mid g .D w wu bu (some e)
              = refundFlow st mid g wu bu e.whiteHold e.blackHold := by
            simp [settleEscrow, hz]
          rw [hred]
          exact refundFlow_cases st mid g wu bu e hInv he hheld h0w h0b hbr
        | abort =>
          have hred : settleEscrow st mid g .abort w wu bu (some e)
              = refundFlow st mid g wu bu e.whiteHold e.blackHold := by
            simp [settleEscrow, hz]
          rw [hred]
          exact refundFlow_cases st mid g wu bu e hInv he hheld h0w h0b hbr
        | W =>
          rcases w with _ | win
          · refine Or.inl ⟨Err.winnerRequired, ?_⟩
            simp [settleEscrow, hz]
          · rw [Bool.and_eq_true] at hbr
            obtain ⟨hw1, hw2⟩ := hbr
            have hro : 0 < (if (wu == some win) then e.whiteHold else e.blackHold) →
                findTxL st.ledger win .refund (some g) = none := by
              intro hp
              rw [Bool.or_eq_true] at hw1
              rcases hw1 with h1 | h1
              · rw [Bool.not_eq_true'] at h1
                exact absurd hp (by simpa using h1)
              · rw [Bool.not_eq_true'] at h1
                exact ledgerHas_eq_false h1
            have hgo : 0 < (if (wu == some win) then e.blackHold else e.whiteHold) →
                findTxL st.ledger win .gain (some g) = none := by
              intro hp
              rw [Bool.or_eq_true] at hw2
              rcases hw2 with h1 | h1
              · rw [Bool.not_eq_true'] at h1
                exact absurd hp (by simpa using h1)
              · rw [Bool.not_eq_true'] at h1
                exact ledgerHas_eq_false h1
            have hown0 : (0 : Int) ≤ (if (wu == some win) then e.whiteHold else e.blackHold) := by
              by_cases hq : (wu == some win) = true
              · simpa [hq] using h0w
              · simp only [Bool.not_eq_true] at hq
                simpa [hq] using h0b
            have hlos0 : (0 : Int) ≤ (if (wu == some win) then e.blackHold else e.whiteHold) := by
              by_cases hq : (wu == some win) = true
              · simpa [hq] using h0b
              · simp only [Bool.not_eq_true] at hq
                simpa [hq] using h0w
            have hred : settleEscrow st mid g .W (some win) wu bu (some e)
                = winFlow st mid g win (if (wu == some win) then bu else wu)
                    (if (wu == some win) then e.whiteHold else e.blackHold)
                    (if (wu == some win) then e.blackHold else e.whiteHold) := by
              simp [settleEscrow, hz]
            rw [hred]
            rcases winFlow_cases st mid g win (if (wu == some win) then bu else wu)
                (if (wu == some win) then e.whiteHold else e.blackHold)
                (if (wu == some win) then e.blackHold else e.whiteHold) e
                he hro hgo hown0 hlos0 hInv with h | ⟨st2, h1, h2, h3⟩
            · exact Or.inl h
            · refine Or.inr ⟨st2, h1, ?_, h3⟩
              have hsum : (if (wu == some win) then e.whiteHold else e.blackHold)
                  + (if (wu == some win) then e.blackHold else e.whiteHold)
                  = e.whiteHold + e.blackHold := by
                by_cases hq : (wu == some win) = true
                · simp [hq]
                · simp only [Bool.not_eq_true] at hq
                  simp [hq]
                  ring
              have hA : heldAmt e = e.whiteHold + e.blackHold := by
                simp [heldAmt, hheld]
              have hB0 : heldAmt { e with status := EscrowStatus.resolved } = 0 := by
                simp [heldAmt]
              omega

/-- Case analysis of one `resolveMatch` call: under the wellformedness
conditions of `resolveOkB` it either throws — leaving the state untouched —
or succeeds conserving the total credit and the escrow invariant. -/
theorem resolveMatch_cases (st : St) (mid g : String) (r : Result) (w wu bu : Option String)
    (hInv : EscInv st) (hOk : resolveOkB st mid g r w wu bu = true) :
    (∃ err, resolveMatch st mid g r w wu bu = .error err) ∨
    (∃ st2, resolveMatch st mid g r w wu bu = .ok st2 ∧
      totalCredit st2 = totalCredit st ∧ EscInv st2) := by
  cases hm : lookupA mid st.matchTable with
  | none =>
    refine Or.inl ⟨Err.matchNotFound, ?_⟩
    simp [resolveMatch, hm]
  | some m =>
    by_cases hres : m.result.isSome = true
    · refine Or.inr ⟨st, ?_, rfl, hInv⟩
      simp [resolveMatch, hm, hres]
    · have hred : resolveMatch st mid g r w wu bu =
          settleEscrow { st with matchTable := updateA mid (fun mm => { mm with lichessGameId := some g, result := some r }) st.matchTable } mid g r w wu bu (lookupA mid st.escrows) := by
        simp [resolveMatch, hm, hres]
      rw [hred]
      exact settleEscrow_cases { st with matchTable := updateA mid (fun mm => { mm with lichessGameId := some g, result := some r }) st.matchTable } mid g r w wu bu hInv hOk

/-- One wellformed wallet call conserves the total credit and the escrow
sanity invariant (a thrown call rolls back and trivially conserves both). -/
theorem step_preserves (st : St) (s : Step) (hInv : EscInv st) (hOk : stepOk st s = true) :
    totalCredit (applyStep st s) = totalCredit st ∧ EscInv (applyStep st s) := by
  cases s with
  | hold mid u c stk =>
    rcases holdStake_cases st mid u c stk hInv hOk with ⟨err, h⟩ | ⟨st2, h, ht, hI⟩
    · simp only [applyStep, h]
      exact ⟨trivial, hInv⟩
    · simp only [applyStep, h]
      exact ⟨ht, hI⟩
  | resolve mid g r w wu bu =>
    rcases resolveMatch_cases st mid g r w wu bu hInv hOk with ⟨err, h⟩ | ⟨st2, h, ht, hI⟩
    · simp only [applyStep, h]
      exact ⟨trivial, hInv⟩
    · simp only [applyStep, h]
      exact ⟨ht, hI⟩

/-- A wellformed sequence of wallet calls conserves the total credit and the
escrow sanity invariant. -/
theorem runSteps_preserves (tr : List Step) (st : St) (hInv : EscInv st)
    (hOk : stepsOk st tr = true) :
    totalCredit (runSteps st tr) = totalCredit st ∧ EscInv (runSteps st tr) := by
  induction tr generalizing st with
  | nil => exact ⟨rfl, hInv⟩
  | cons s rest ih =>
    rw [stepsOk, Bool.and_eq_true] at hOk
    obtain ⟨h1, h2⟩ := hOk
    obtain ⟨ht, hI⟩ := step_preserves st s hInv h1
    obtain ⟨ht2, hI2⟩ := ih (applyStep st s) hI h2
    constructor
    · simp only [runSteps]
      omega
    · simp only [runSteps]
      exact hI2

/-- C1 counterexample: the conservation claim fails for an arbitrary
sequence of wallet calls.  Holding the same stake twice for the same
`(matchId, accountId)` pair debits the balance only once (the ledger write
is suppressed by the idempotency key) but increments the escrow hold twice,
creating 20 CC of held escrow out of thin air: the total goes from 200
to 220. -/
theorem claim_C1_counterexample :
    totalCredit (runSteps stBase [.hold "m" "A" .white 20, .hold "m" "A" .white 20])
      ≠ totalCredit stBase := by
  decide

/-- C1, amended: the conservation invariant — the sum of all balances plus
the sum of all currently held escrow is unchanged, with no credit created or
destroyed — holds for every sequence of `holdStake` / `resolveMatch` calls
that is wellformed in the sense of `stepsOk`: each positive hold uses a
fresh `(accountId, stake_hold, matchId)` ledger key against an escrow that
is absent or still held, and each resolution of a nonzero held escrow
supplies the side accounts (distinct when both holds are nonzero) and fresh
refund/gain keys.  The counterexample shows the claim is false without the
freshness condition.  Calls that throw roll their transaction back and
conserve trivially; the casual-game flat reward is a separate injection
point outside these two operations. -/
theorem claim_C1 (st : St) (tr : List Step) (hInv : EscInv st)
    (hOk : stepsOk st tr = true) :
    totalCredit (runSteps st tr) = totalCredit st :=
  (runSteps_preserves tr st hInv hOk).1

/-- C1 witness: a wellformed hold-hold-draw-resolve history on the concrete
base state conserves the total credit. -/
theorem claim_C1_witness :
    EscInv stBase ∧
    stepsOk stBase [.hold "m" "A" .white 20, .hold "m" "B" .black 20,
      .resolve "m" "g1" .D none (some "A") (some "B")] = true ∧
    totalCredit (runSteps stBase [.hold "m" "A" .white 20, .hold "m" "B" .black 20,
      .resolve "m" "g1" .D none (some "A") (some "B")]) = totalCredit stBase :=
  ⟨by decide, by decide,
    claim_C1 stBase [.hold "m" "A" .white 20, .hold "m" "B" .black 20,
      .resolve "m" "g1" .D none (some "A") (some "B")] (by decide) (by decide)⟩

end ChessCoin
